import Mathlib

/-!
Verification of the match-statistics ingestion and aggregation core of the
dota-mini-app backend (backend/stats_db.py, backend/stats_updater.py,
backend/api.py, backend/hero_matchups_service.py, backend/config.py).

The relational datastore is embedded shallowly: each SQL table is a list of
rows in insertion order; "INSERT ... ON CONFLICT (pk) DO UPDATE/NOTHING" is an
association-list upsert / insert-if-absent; SQL `SELECT` reads are list scans.
Two tables are considered equal when they agree as key-to-value maps (row
order inside an SQL table is not observable).  Python `float` arithmetic is
idealised as exact rational arithmetic over `ℚ`, with `round(x, 4)` embedded
as exact round-half-to-even at 4 decimal places.
-/

namespace DotaStats

/-- `ALLOWED_GAME_MODE_PAIRS` from backend/config.py: `{(22, 7)}`. -/
def ALLOWED_GAME_MODE_PAIRS : List (Int × Int) := [(22, 7)]

/-- `MIN_MATCH_DURATION_SECONDS` from backend/config.py. -/
def MIN_MATCH_DURATION_SECONDS : Int := 900

/-- One row of the `match_players` table (key fields only; the extended
per-player stat columns are carried by no claim and are omitted). -/
structure MatchPlayerRow where
  match_id : Nat
  player_slot : Nat
  hero_id : Option Nat
  is_radiant : Bool
deriving DecidableEq

/-- A per-player record as produced by `_extract_player_stats` and passed in
the `players` argument of `save_match_and_update_aggregates`. -/
structure PlayerRow where
  hero_id : Option Nat
  player_slot : Nat
  is_radiant : Bool
deriving DecidableEq

/-- The canonical match record: the argument tuple of
`save_match_and_update_aggregates` (equally, a row of the `matches` table
together with the `players` payload).  `players = []` models Python's
`players=None` (both make the `if players:` insert loop a no-op). -/
structure MatchRec where
  match_id : Nat
  start_time : Int
  duration : Option Int
  patch : Option String
  avg_rank_tier : Option Int
  rank_bucket : Option String
  radiant_win : Bool
  radiant_heroes : List Nat
  dire_heroes : List Nat
  game_mode : Option Int := none
  lobby_type : Option Int := none
  players : List PlayerRow := []
deriving DecidableEq

/-- An aggregate table: rows `(key, (games, wins))` in insertion order.
Keys are `Nat` for `hero_stats` and `Nat × Nat` for the two pair tables. -/
abbrev AggTable (κ : Type) := List (κ × (Nat × Nat))

/-- `INSERT INTO t (key, games, wins) VALUES (k, 1, w) ON CONFLICT (key)
DO UPDATE SET games = t.games + 1, wins = t.wins + excluded.wins`. -/
def upsertAgg {κ : Type} [DecidableEq κ] (t : AggTable κ) (k : κ) (w : Nat) :
    AggTable κ :=
  if t.any (fun kv => decide (kv.1 = k)) then
    t.map (fun kv => if kv.1 = k then (kv.1, (kv.2.1 + 1, kv.2.2 + w)) else kv)
  else t ++ [(k, (1, w))]

/-- `SELECT games, wins FROM t WHERE key = k` (at most one row: key is the
primary key). -/
def findAgg? {κ : Type} [DecidableEq κ] (t : AggTable κ) (k : κ) :
    Option (Nat × Nat) :=
  (t.find? (fun kv => decide (kv.1 = k))).map Prod.snd

/-- The value stored at key `k`, an absent row reading as `(0, 0)`.  Two
tables are compared through this map. -/
def lookupAgg {κ : Type} [DecidableEq κ] (t : AggTable κ) (k : κ) : Nat × Nat :=
  (findAgg? t k).getD (0, 0)

/-- The three aggregate tables of stats_db.py. -/
structure Aggregates where
  hero_stats : AggTable Nat
  hero_matchups : AggTable (Nat × Nat)
  hero_synergy : AggTable (Nat × Nat)
deriving DecidableEq

def emptyAggregates : Aggregates := ⟨[], [], []⟩

/-- The datastore state owned by stats_db.py (the tables the claims touch). -/
structure DBState where
  «matches» : List MatchRec
  match_players : List MatchPlayerRow
  aggs : Aggregates
deriving DecidableEq

def emptyState : DBState := ⟨[], [], emptyAggregates⟩

/-- The hard mode gate of `save_match_and_update_aggregates` (stats_db.py
lines 191-201): blocked when `game_mode` or `lobby_type` is null or the pair
is not in `ALLOWED_GAME_MODE_PAIRS`. -/
def modeBlocked (m : MatchRec) : Bool :=
  match m.game_mode, m.lobby_type with
  | some gm, some lt => !(ALLOWED_GAME_MODE_PAIRS.contains (gm, lt))
  | _, _ => true

/-- The duration gate (stats_db.py lines 245-256): true when `duration` is
non-null and `< MIN_MATCH_DURATION_SECONDS`. -/
def durationShort (m : MatchRec) : Bool :=
  match m.duration with
  | some d => decide (d < MIN_MATCH_DURATION_SECONDS)
  | none => false

/-- The rebuild filter `duration IS NULL OR duration >= :min_dur`
(stats_db.py lines 496-502 and 612-618); equal to `!durationShort`. -/
def durKeep (m : MatchRec) : Bool := !durationShort m

/-- `match_exists` / the `rowcount == 0` probe of the insert-or-ignore on
`matches(match_id)`. -/
def matchExists (s : DBState) (id : Nat) : Bool :=
  s.«matches».any (fun m => decide (m.match_id = id))

/-- `a_wins = int((r_hero < d_hero) == radiant_win)` (stats_db.py line 315). -/
def aWins (r d : Nat) (rw : Bool) : Nat := if decide (r < d) = rw then 1 else 0

/-- Canonical pair key `(min, max)` (stats_db.py lines 313-314). -/
def pkey (x y : Nat) : Nat × Nat := (min x y, max x y)

/-- The `hero_stats` upsert loop over one team's hero list with win
increment `w` (stats_db.py lines 286-306, one team). -/
def applyHeroStats (t : AggTable Nat) (heroes : List Nat) (w : Nat) :
    AggTable Nat :=
  heroes.foldl (fun t h => upsertAgg t h w) t

/-- The `hero_matchups` double loop (stats_db.py lines 308-325). -/
def applyMatchups (t : AggTable (Nat × Nat)) (rh dh : List Nat) (rw : Bool) :
    AggTable (Nat × Nat) :=
  rh.foldl
    (fun t r =>
      dh.foldl
        (fun t d => if r = d then t else upsertAgg t (pkey r d) (aWins r d rw))
        t)
    t

/-- The unordered index pairs `i < j` of one team's hero list, in the loop
order of `for i in range(n): for j in range(i+1, n)`. -/
def teamPairs : List Nat → List (Nat × Nat)
  | [] => []
  | h :: tl => tl.map (fun x => (h, x)) ++ teamPairs tl

/-- The `hero_synergy` loop for one team (stats_db.py lines 327-346). -/
def applySynergy (t : AggTable (Nat × Nat)) (heroes : List Nat) (won : Bool) :
    AggTable (Nat × Nat) :=
  (teamPairs heroes).foldl
    (fun t p => upsertAgg t (pkey p.1 p.2) (if won then 1 else 0)) t

/-- Steps 5-7 of `save_match_and_update_aggregates`: the per-match aggregate
deltas applied to all three tables.  The identical arithmetic is used by the
rebuild loops of `delete_matches_and_recalculate` (stats_db.py 509-549) and
`recalculate_all_aggregates` (stats_db.py 624-664). -/
def applyMatchAgg (a : Aggregates) (m : MatchRec) : Aggregates :=
  { hero_stats :=
      applyHeroStats
        (applyHeroStats a.hero_stats m.radiant_heroes
          (if m.radiant_win then 1 else 0))
        m.dire_heroes (if m.radiant_win then 0 else 1)
    hero_matchups :=
      applyMatchups a.hero_matchups m.radiant_heroes m.dire_heroes
        m.radiant_win
    hero_synergy :=
      applySynergy
        (applySynergy a.hero_synergy m.radiant_heroes m.radiant_win)
        m.dire_heroes (!m.radiant_win) }

/-- `INSERT INTO match_players ... ON CONFLICT (match_id, player_slot)
DO NOTHING` for one player row. -/
def insertPlayerIgnore (t : List MatchPlayerRow) (r : MatchPlayerRow) :
    List MatchPlayerRow :=
  if t.any (fun q => decide (q.match_id = r.match_id) &&
      decide (q.player_slot = r.player_slot)) then t
  else t ++ [r]

/-- The per-player insert loop of step 4 (stats_db.py lines 258-284). -/
def insertPlayers (t : List MatchPlayerRow) (mid : Nat) (ps : List PlayerRow) :
    List MatchPlayerRow :=
  ps.foldl
    (fun t p => insertPlayerIgnore t ⟨mid, p.player_slot, p.hero_id, p.is_radiant⟩)
    t

/-- `save_match_and_update_aggregates` (stats_db.py lines 159-347):
mode gate, insert-or-ignore of the match row with early return when the row
already existed, duration gate, player inserts, aggregate updates — all in
one transaction, so the whole call is one state-to-state function. -/
def saveMatch (s : DBState) (m : MatchRec) : DBState :=
  if modeBlocked m then s
  else if matchExists s m.match_id then s
  else
    let s1 : DBState := { s with «matches» := s.«matches» ++ [m] }
    if durationShort m then s1
    else
      let s2 : DBState :=
        { s1 with match_players := insertPlayers s1.match_players m.match_id m.players }
      { s2 with aggs := applyMatchAgg s2.aggs m }

/-- The shared rebuild core: truncate the three aggregate tables and
re-accumulate them from the given `matches` rows, applying the filter
`duration IS NULL OR duration >= MIN_MATCH_DURATION_SECONDS`. -/
def rebuildAggregates (rows : List MatchRec) : Aggregates :=
  (rows.filter durKeep).foldl applyMatchAgg emptyAggregates

/-- `recalculate_all_aggregates` (stats_db.py lines 591-689). -/
def recalculateAllAggregates (s : DBState) : DBState :=
  { s with aggs := rebuildAggregates s.«matches» }

/-- `delete_matches_and_recalculate` (stats_db.py lines 467-584): no-op on an
empty id list, else delete the `match_players` and `matches` rows of the
given ids and rebuild all aggregates from the remaining matches. -/
def deleteMatchesAndRecalculate (ids : List Nat) (s : DBState) : DBState :=
  if ids = [] then s
  else
    let ms := s.«matches».filter (fun m => !(ids.contains m.match_id))
    { «matches» := ms
      match_players := s.match_players.filter (fun p => !(ids.contains p.match_id))
      aggs := rebuildAggregates ms }

end DotaStats

namespace DotaStats

/-- Python's `round(x, 4)` idealised over `ℚ`: round to the nearest multiple
of `1/10000`, ties to the even count of ten-thousandths (banker's rounding,
as Python's built-in `round`).  Computed on the numerator/denominator with
integer arithmetic: with `q = num/den`, `10000*q` has floor
`fl = fdiv (10000*num) den` and fractional part `r2/(2*den)` where
`r2 = 2*(10000*num - fl*den)`; round up when `r2 > den`, down when
`r2 < den`, to the even neighbour on a tie. -/
def round4 (q : ℚ) : ℚ :=
  let n10 : ℤ := 10000 * q.num
  let d : ℤ := (q.den : ℤ)
  let fl : ℤ := Int.fdiv n10 d
  let r2 : ℤ := 2 * (n10 - fl * d)
  let r : ℤ :=
    if d < r2 then fl + 1
    else if r2 < d then fl
    else if fl % 2 = 0 then fl else fl + 1
  Rat.divInt r 10000

/-- Exact rational subtraction, written on numerators and denominators
(`Rat.sub` is `@[irreducible]`, which would block evaluation of concrete
instances); `ratSub_eq` shows it is ordinary subtraction. -/
def ratSub (x y : ℚ) : ℚ :=
  Rat.divInt (x.num * (y.den : ℤ) - y.num * (x.den : ℤ))
    ((x.den : ℤ) * (y.den : ℤ))

theorem ratSub_eq (x y : ℚ) : ratSub x y = x - y := by
  unfold ratSub
  rw [Rat.divInt_eq_div]
  push_cast
  conv_rhs => rw [← Rat.num_div_den x, ← Rat.num_div_den y]
  rw [div_sub_div _ _ (show ((x.den : ℚ)) ≠ 0 by exact_mod_cast x.den_nz)
    (show ((y.den : ℚ)) ≠ 0 by exact_mod_cast y.den_nz)]
  congr 1
  ring

/-- One element of the `get_hero_matchup_rows` result list. -/
structure MatchupQueryRow where
  hero_id : Nat
  games : Nat
  wins : Int
  wr_vs : ℚ
deriving DecidableEq

/-- `get_hero_matchup_rows` (stats_db.py lines 354-382): scan `hero_matchups`
for rows with `(hero_a = id OR hero_b = id) AND games >= min`, derive the
opponent id and the hero-side wins, and attach `wr_vs`. -/
def getHeroMatchupRows (s : DBState) (heroId : Nat) (minGames : Nat) :
    List MatchupQueryRow :=
  (s.aggs.hero_matchups.filter
      (fun kv => (decide (kv.1.1 = heroId) || decide (kv.1.2 = heroId)) &&
        decide (minGames ≤ kv.2.1))).map
    (fun kv =>
      let games := kv.2.1
      let wins := kv.2.2
      if kv.1.1 = heroId then
        { hero_id := kv.1.2, games := games, wins := (wins : Int)
          wr_vs := if 0 < games then
            round4 (Rat.divInt (wins : Int) (games : Int)) else 0 }
      else
        { hero_id := kv.1.1, games := games
          wins := (games : Int) - (wins : Int)
          wr_vs := if 0 < games then
            round4 (Rat.divInt ((games : Int) - (wins : Int)) (games : Int))
            else 0 })

/-- `get_hero_base_winrate_from_db` (stats_db.py lines 385-395): `None` when
the `hero_stats` row is absent or has `games = 0`. -/
def getHeroBaseWinrateFromDb (s : DBState) (heroId : Nat) : Option ℚ :=
  match findAgg? s.aggs.hero_stats heroId with
  | none => none
  | some gw =>
    if gw.1 = 0 then none
    else some (round4 (Rat.divInt (gw.2 : Int) (gw.1 : Int)))

/-- `get_hero_total_games` (stats_db.py lines 398-405). -/
def getHeroTotalGames (s : DBState) (heroId : Nat) : Nat :=
  match findAgg? s.aggs.hero_stats heroId with
  | none => 0
  | some gw => gw.1

/-- Stable insertion into a sorted list: `x` goes before the first element
`y` with `le x y`. -/
def insertSorted {α : Type} (le : α → α → Bool) (x : α) : List α → List α
  | [] => [x]
  | y :: ys => if le x y then x :: y :: ys else y :: insertSorted le x ys

/-- Stable sort (insertion sort).  A stable sort is unique, so this embeds
Python's stable `sorted`; `sorted(key=k)` is `sortStable (k · ≤ k ·)` and
`sorted(key=k, reverse=True)` is `sortStable (k · ≥ k ·)`. -/
def sortStable {α : Type} (le : α → α → Bool) : List α → List α
  | [] => []
  | x :: xs => insertSorted le x (sortStable le xs)

/-- One entry of the `counters` / `victims` response lists. -/
structure RankEntry where
  hero_id : Nat
  games : Nat
  wr_vs : ℚ
  advantage : ℚ
deriving DecidableEq

/-- The counter-ranking core of `api_hero_counters` (api.py lines 487-545):
503 (here `none`) when no matchup rows pass `min_games`; else enrich each row
with `advantage = round(wr_vs - base, 4)` where `base` falls back to `0.5`,
split by the sign of `advantage`, sort each side (ascending for counters,
descending for victims), truncate both to `limit`.  Returns
`(base_winrate, counters, victims)`. -/
def apiHeroCounters (s : DBState) (heroId lim minGames : Nat) :
    Option (ℚ × List RankEntry × List RankEntry) :=
  let rows := getHeroMatchupRows s heroId minGames
  if rows = [] then none
  else
    let base := (getHeroBaseWinrateFromDb s heroId).getD (1/2)
    let enriched : List RankEntry :=
      rows.map (fun r => ⟨r.hero_id, r.games, r.wr_vs, round4 (ratSub r.wr_vs base)⟩)
    let counters :=
      (sortStable (fun x y => decide (x.advantage ≤ y.advantage))
        (enriched.filter (fun e => decide (e.advantage < 0)))).take lim
    let victims :=
      (sortStable (fun x y => decide (y.advantage ≤ x.advantage))
        (enriched.filter (fun e => decide (0 ≤ e.advantage)))).take lim
    some (base, counters, victims)

/-- One player object of a full `/matches/{id}` payload (the fields the
parser's validation consumes; a missing `hero_id` key and `hero_id = 0` are
both falsy in `not p.get("hero_id")`, so `hero_id` is an `Option Nat`). -/
structure PlayerPayload where
  hero_id : Option Nat
  player_slot : Option Nat
deriving DecidableEq

/-- A full `/matches/{id}` payload (fields consumed by
`_parse_match_details`). -/
structure DetailPayload where
  match_id : Option Nat
  start_time : Option Int
  duration : Option Int
  patch : Option String
  avg_rank_tier : Option Int
  game_mode : Option Int
  lobby_type : Option Int
  radiant_win : Bool
  players : Option (List PlayerPayload)
deriving DecidableEq

/-- `_rank_bucket_for_tier` (stats_updater.py lines 175-198): `not tier`
catches both `None` and `0`. -/
def rankBucketForTier : Option Int → String
  | none => "unknown"
  | some t =>
    if t = 0 then "unknown"
    else if t ≤ 20 then "low"
    else if t ≤ 35 then "mid"
    else if t ≤ 50 then "high"
    else if t ≤ 60 then "very_high"
    else "immortal"

/-- The radiant hero extraction of `_parse_match_details` (stats_updater.py
lines 340-344): players with a present `player_slot < 128`. -/
def radiantOf (ps : List PlayerPayload) : List Nat :=
  ps.filterMap (fun q =>
    match q.player_slot with
    | some s => if s < 128 then q.hero_id else none
    | none => none)

/-- The dire hero extraction (stats_updater.py lines 345-349): present
`player_slot >= 128`. -/
def direOf (ps : List PlayerPayload) : List Nat :=
  ps.filterMap (fun q =>
    match q.player_slot with
    | some s => if 128 ≤ s then q.hero_id else none
    | none => none)

/-- `_extract_player_stats`, restricted to the identity fields the claims
consume (`player_slot` defaults to 128, `is_radiant = slot < 128`). -/
def extractPlayerStats (q : PlayerPayload) : PlayerRow :=
  let slot := q.player_slot.getD 128
  ⟨q.hero_id, slot, decide (slot < 128)⟩

/-- `_parse_match_details` (stats_updater.py lines 305-388).  Rejections, in
code order: falsy `match_id`; `len(players) != 10`; any falsy `hero_id`;
radiant/dire split by `player_slot` not exactly 5+5.  No further check is
performed before the canonical record is built. -/
def parseMatchDetails (p : DetailPayload) : Option MatchRec :=
  match p.match_id with
  | none => none
  | some mid =>
    if mid = 0 then none
    else
      let players := p.players.getD []
      if players.length ≠ 10 then none
      else if players.any (fun q => decide (q.hero_id.getD 0 = 0)) then none
      else
        let radiant := radiantOf players
        let dire := direOf players
        if radiant.length ≠ 5 ∨ dire.length ≠ 5 then none
        else
          some { match_id := mid
                 start_time := p.start_time.getD 0
                 duration := p.duration
                 patch := p.patch
                 avg_rank_tier := p.avg_rank_tier
                 rank_bucket := some (rankBucketForTier p.avg_rank_tier)
                 radiant_win := p.radiant_win
                 radiant_heroes := radiant
                 dire_heroes := dire
                 game_mode := p.game_mode
                 lobby_type := p.lobby_type
                 players := players.map extractPlayerStats }

end DotaStats

namespace DotaStats

/-- One row of the `hero_matchups_cache` table (db.py).  `updated_at` is
abstracted from an ISO timestamp string to an integer instant; `winrate` is
the stored rational. -/
structure CacheRow where
  opponent_hero_id : Nat
  games : Nat
  wins : Nat
  winrate : ℚ
  updated_at : Int
deriving DecidableEq

/-- One entry of the provider response of `GET /heroes/{id}/matchups`
(`hero_id` falsy when absent or 0). -/
structure ApiMatchupEntry where
  hero_id : Option Nat
  games_played : Nat
  wins : Nat
deriving DecidableEq

/-- The `to_cache` accumulation of `get_hero_matchups_cached`
(hero_matchups_service.py lines 59-73): skip entries with falsy
`hero_id` or `games_played == 0`, attach `winrate = round(wins/games, 4)`
and the refresh instant. -/
def buildCacheRows (data : List ApiMatchupEntry) (now : Int) : List CacheRow :=
  data.filterMap (fun e =>
    match e.hero_id with
    | none => none
    | some oid =>
      if oid = 0 then none
      else if e.games_played = 0 then none
      else some ⟨oid, e.games_played, e.wins,
        round4 (Rat.divInt (e.wins : Int) (e.games_played : Int)), now⟩)

/-- `sorted(rows, key=lambda x: x["winrate"], reverse=True)`. -/
def sortByWinrateDesc (rows : List CacheRow) : List CacheRow :=
  sortStable (fun x y => decide (y.winrate ≤ x.winrate)) rows

/-- `get_hero_matchups_cached` (hero_matchups_service.py lines 21-78) as a
pure function of the cache read (`cached`, `lastUpdated` — coupled as in
`get_hero_matchups_from_cache`: `lastUpdated` is the max `updated_at` and is
`none` iff no rows), the clock `now`, the TTL, and the outcome of the single
possible provider call.  The result carries the returned rows, whether the
provider was called, and the cache table contents afterwards. -/
def getHeroMatchupsCached {ε : Type} (cached : List CacheRow)
    (lastUpdated : Option Int) (now ttl : Int)
    (provider : Except ε (List ApiMatchupEntry)) :
    Except ε (List CacheRow × Bool × List CacheRow) :=
  let fresh : Bool :=
    match lastUpdated with
    | some t => decide (now - t < ttl)
    | none => false
  if fresh && !cached.isEmpty then .ok (sortByWinrateDesc cached, false, cached)
  else
    match provider with
    | .error e =>
      if !cached.isEmpty then .ok (sortByWinrateDesc cached, true, cached)
      else .error e
    | .ok data =>
      let toCache := buildCacheRows data now
      .ok (sortByWinrateDesc toCache, true, toCache)

/-- `cache_is_fresh` of hero_matchups_service.py lines 33-39. -/
def cacheIsFresh (lastUpdated : Option Int) (now ttl : Int) : Bool :=
  match lastUpdated with
  | some t => decide (now - t < ttl)
  | none => false

/-- `self._min_delay = 60.0 / max(max_per_minute, 1)` of `RateLimiter`
(stats_updater.py line 157). -/
def minDelay (maxPerMinute : Nat) : ℚ := 60 / (max maxPerMinute 1 : ℚ)

/-- The scheduling state of one task inside `RateLimiter.acquire`:
not yet entered, suspended in `asyncio.sleep` until `wakeAt`, or returned
(the provider call is issued right at return). -/
inductive TaskState where
  | idle : TaskState
  | sleeping (wakeAt : ℚ) : TaskState
  | finished : TaskState
deriving DecidableEq

/-- Shared state of the process: the monotonic clock, the limiter's
`_last_call`, the per-task positions, and the issue times of the provider
calls made so far. -/
structure RLState where
  now : ℚ
  lastCall : ℚ
  tasks : List TaskState
  calls : List ℚ
deriving DecidableEq

/-- Cooperative (asyncio) small-step semantics of concurrent
`RateLimiter.acquire` calls.  Code between suspension points runs
atomically; `await asyncio.sleep(...)` is the only suspension point.
`acquire` reads `elapsed = now - _last_call`; when `elapsed >= _min_delay`
it runs to completion atomically (`fast`), otherwise it suspends until
`now + (_min_delay - elapsed)` (`sleep`) and, once the clock has passed the
wake time, resumes, sets `_last_call` and returns (`wake`); the caller's
provider call is issued at return time. -/
inductive RLStep (d : ℚ) : RLState → RLState → Prop where
  | advance (s : RLState) (t : ℚ) (h : s.now ≤ t) :
      RLStep d s { s with now := t }
  | fast (s : RLState) (i : Nat) (h : s.tasks.get? i = some .idle)
      (hfast : ¬ (s.now - s.lastCall < d)) :
      RLStep d s { s with lastCall := s.now, tasks := s.tasks.set i .finished,
                          calls := s.calls ++ [s.now] }
  | sleep (s : RLState) (i : Nat) (h : s.tasks.get? i = some .idle)
      (hslow : s.now - s.lastCall < d) :
      RLStep d s
        { s with tasks := s.tasks.set i (.sleeping (s.now + (d - (s.now - s.lastCall)))) }
  | wake (s : RLState) (i : Nat) (w : ℚ)
      (h : s.tasks.get? i = some (.sleeping w)) (hw : w ≤ s.now) :
      RLStep d s { s with lastCall := s.now, tasks := s.tasks.set i .finished,
                          calls := s.calls ++ [s.now] }

/-- Multi-step reachability for the rate-limiter semantics. -/
def RLReaches (d : ℚ) : RLState → RLState → Prop :=
  Relation.ReflTransGen (RLStep d)

/-- Exact rational addition on numerators and denominators (`Rat.add` is
`@[irreducible]`, which would block evaluation of concrete instances);
`ratAdd_eq` shows it is ordinary addition. -/
def ratAdd (x y : ℚ) : ℚ :=
  Rat.divInt (x.num * (y.den : ℤ) + y.num * (x.den : ℤ))
    ((x.den : ℤ) * (y.den : ℤ))

/-- The number of issued provider calls inside the sliding 60-second window
`(t, t + 60]`. -/
def callsInWindow (calls : List ℚ) (t : ℚ) : Nat :=
  (calls.filter (fun c => decide (t < c) && decide (c ≤ ratAdd t 60))).length

/-- The initial limiter state: `_last_call = 0.0`, two concurrent tasks
about to call `acquire` (e.g. the publicMatches loop and the explorer
loop), no calls issued yet. -/
def rlInit : RLState := ⟨0, 0, [.idle, .idle], []⟩

end DotaStats

namespace DotaStats

/-- The states reachable from the empty datastore through
`save_match_and_update_aggregates` calls. -/
inductive Reachable : DBState → Prop where
  | empty : Reachable emptyState
  | step (s : DBState) (m : MatchRec) : Reachable s → Reachable (saveMatch s m)

theorem lookupAgg_nil {κ : Type} [DecidableEq κ] (k : κ) :
    lookupAgg ([] : AggTable κ) k = (0, 0) := rfl

theorem lookupAgg_cons {κ : Type} [DecidableEq κ] (a : κ) (v : Nat × Nat)
    (t : AggTable κ) (k : κ) :
    lookupAgg ((a, v) :: t) k = if a = k then v else lookupAgg t k := by
  by_cases h : a = k <;> simp [lookupAgg, findAgg?, List.find?_cons, h]

theorem lookupAgg_mapUpd_self {κ : Type} [DecidableEq κ] (t : AggTable κ)
    (k : κ) (w : Nat) :
    lookupAgg
        (t.map (fun kv => if kv.1 = k then (kv.1, (kv.2.1 + 1, kv.2.2 + w)) else kv)) k
      = if t.any (fun kv => decide (kv.1 = k)) then lookupAgg t k + (1, w)
        else lookupAgg t k := by
  induction t with
  | nil => simp
  | cons hd tl ih =>
    obtain ⟨a, v⟩ := hd
    by_cases ha : a = k
    · subst ha
      simp only [List.map_cons, if_pos rfl, lookupAgg_cons, List.any_cons,
        decide_eq_true_eq, eq_self_iff_true, true_or, if_true, if_pos rfl]
      apply Prod.ext <;> simp
    · have hda : decide (a = k) = false := by simp [ha]
      simp only [List.map_cons, if_neg ha, lookupAgg_cons, List.any_cons, ih]
      rw [hda, Bool.false_or]

theorem lookupAgg_mapUpd_other {κ : Type} [DecidableEq κ] (t : AggTable κ)
    (k : κ) (w : Nat) (k' : κ) (hne : k' ≠ k) :
    lookupAgg
        (t.map (fun kv => if kv.1 = k then (kv.1, (kv.2.1 + 1, kv.2.2 + w)) else kv)) k'
      = lookupAgg t k' := by
  induction t with
  | nil => simp
  | cons hd tl ih =>
    obtain ⟨a, v⟩ := hd
    by_cases ha : a = k
    · subst ha
      have hak : a ≠ k' := fun h => hne h.symm
      simp [lookupAgg_cons, hak, ih]
    · simp [lookupAgg_cons, if_neg ha, ih]

theorem lookupAgg_of_any_false {κ : Type} [DecidableEq κ] (t : AggTable κ)
    (k : κ) (h : t.any (fun kv => decide (kv.1 = k)) = false) :
    lookupAgg t k = (0, 0) := by
  induction t with
  | nil => rfl
  | cons hd tl ih =>
    simp only [List.any_cons, Bool.or_eq_false_iff, decide_eq_false_iff_not] at h
    obtain ⟨a, v⟩ := hd
    rw [lookupAgg_cons, if_neg h.1]
    exact ih h.2

theorem lookupAgg_append_single {κ : Type} [DecidableEq κ] (t : AggTable κ)
    (k : κ) (v : Nat × Nat) (k' : κ) :
    lookupAgg (t ++ [(k, v)]) k'
      = if t.any (fun kv => decide (kv.1 = k')) then lookupAgg t k'
        else if k = k' then v else (0, 0) := by
  induction t with
  | nil =>
    by_cases hk : k = k'
    · simp [lookupAgg_cons, hk]
    · simp only [List.nil_append, lookupAgg_cons, if_neg hk, List.any_nil,
        Bool.false_eq_true, if_false]
      rfl
  | cons hd tl ih =>
    obtain ⟨a, u⟩ := hd
    by_cases ha : a = k'
    · simp [lookupAgg_cons, ha]
    · have hda : decide (a = k') = false := by simp [ha]
      simp only [List.cons_append, lookupAgg_cons, if_neg ha, List.any_cons, ih]
      rw [hda, Bool.false_or]

/-- The key fact about the upsert: pointwise, it adds `(1, w)` at key `k`
and leaves every other key unchanged. -/
theorem lookupAgg_upsertAgg {κ : Type} [DecidableEq κ] (t : AggTable κ)
    (k : κ) (w : Nat) (k' : κ) :
    lookupAgg (upsertAgg t k w) k'
      = lookupAgg t k' + (if k' = k then ((1 : Nat), w) else (0, 0)) := by
  unfold upsertAgg
  by_cases hc : t.any (fun kv => decide (kv.1 = k)) = true
  · rw [if_pos hc]
    by_cases hk : k' = k
    · subst hk
      rw [lookupAgg_mapUpd_self, if_pos hc, if_pos rfl]
    · rw [lookupAgg_mapUpd_other t k w k' hk, if_neg hk]
      simp
  · rw [if_neg hc]
    rw [Bool.not_eq_true] at hc
    rw [lookupAgg_append_single]
    by_cases hk : k' = k
    · subst hk
      rw [if_neg (by simp [hc]), if_pos rfl, lookupAgg_of_any_false t k' hc]
      simp
    · rw [if_neg (fun h : k = k' => hk h.symm), if_neg hk]
      by_cases hin : t.any (fun kv => decide (kv.1 = k')) = true
      · rw [if_pos hin]
        simp
      · rw [if_neg hin, lookupAgg_of_any_false t k' (Bool.eq_false_iff.mpr hin)]
        simp

/-- Pointwise effect of a plain upsert loop: the fold adds the sum of the
per-element indicator deltas at each key. -/
theorem lookupAgg_foldl_upsert {κ α : Type} [DecidableEq κ]
    (step : AggTable κ → α → AggTable κ) (kf : α → κ) (wf : α → Nat)
    (hstep : ∀ t x, step t x = upsertAgg t (kf x) (wf x)) :
    ∀ (L : List α) (t : AggTable κ) (k : κ),
      lookupAgg (L.foldl step t) k
        = lookupAgg t k +
          (L.map (fun x => if kf x = k then ((1 : Nat), wf x) else (0, 0))).sum := by
  intro L
  induction L with
  | nil => intro t k; simp
  | cons x L ih =>
    intro t k
    simp only [List.foldl_cons, List.map_cons, List.sum_cons]
    rw [ih, hstep, lookupAgg_upsertAgg, add_assoc]
    by_cases hk : kf x = k
    · rw [if_pos hk, if_pos hk.symm]
    · rw [if_neg hk, if_neg (fun h => hk h.symm)]

/-- Pointwise effect of the `hero_matchups` loop shape, which skips the
diagonal pairs `r == d`. -/
theorem lookupAgg_foldl_matchupStep (rw : Bool) :
    ∀ (L : List (Nat × Nat)) (t : AggTable (Nat × Nat)) (k : Nat × Nat),
      lookupAgg
          (L.foldl
            (fun t p => if p.1 = p.2 then t
              else upsertAgg t (pkey p.1 p.2) (aWins p.1 p.2 rw)) t) k
        = lookupAgg t k +
          (L.map (fun p => if p.1 ≠ p.2 ∧ pkey p.1 p.2 = k
            then ((1 : Nat), aWins p.1 p.2 rw) else (0, 0))).sum := by
  intro L
  induction L with
  | nil => intro t k; simp
  | cons x L ih =>
    intro t k
    simp only [List.foldl_cons, List.map_cons, List.sum_cons]
    by_cases hd : x.1 = x.2
    · rw [if_pos hd, ih, if_neg (fun h => h.1 hd)]
      have h0 : ((0, 0) : Nat × Nat) = 0 := rfl
      rw [h0, zero_add]
    · rw [if_neg hd, ih, lookupAgg_upsertAgg, add_assoc]
      by_cases hk : pkey x.1 x.2 = k
      · rw [if_pos hk.symm, if_pos ⟨hd, hk⟩]
      · rw [if_neg (fun h => hk h.symm), if_neg (fun h => hk h.2)]

/-- The `hero_matchups` double loop flattened to a single fold over the
cross-team pair list. -/
theorem applyMatchups_eq_foldl (rh dh : List Nat) (rw : Bool) :
    ∀ t, applyMatchups t rh dh rw
      = (rh.flatMap (fun r => dh.map (fun d => (r, d)))).foldl
          (fun t p => if p.1 = p.2 then t
            else upsertAgg t (pkey p.1 p.2) (aWins p.1 p.2 rw)) t := by
  induction rh with
  | nil => intro t; rfl
  | cons r rh ih =>
    intro t
    simp only [applyMatchups, List.foldl_cons, List.flatMap_cons,
      List.foldl_append, List.foldl_map]
    exact ih _

/-- The per-match `hero_stats` delta at hero `h`: `(1, win-flag)` for each
occurrence of `h` on either team. -/
def statDelta (m : MatchRec) (h : Nat) : Nat × Nat :=
  (m.radiant_heroes.map
    (fun x => if x = h then ((1 : Nat), if m.radiant_win then 1 else 0)
      else (0, 0))).sum +
  (m.dire_heroes.map
    (fun x => if x = h then ((1 : Nat), if m.radiant_win then 0 else 1)
      else (0, 0))).sum

/-- The cross-team pair list of one match, in loop order. -/
def crossPairs (m : MatchRec) : List (Nat × Nat) :=
  m.radiant_heroes.flatMap (fun r => m.dire_heroes.map (fun d => (r, d)))

/-- The per-match `hero_matchups` delta at pair key `k`. -/
def matchupDelta (m : MatchRec) (k : Nat × Nat) : Nat × Nat :=
  ((crossPairs m).map
    (fun p => if p.1 ≠ p.2 ∧ pkey p.1 p.2 = k
      then ((1 : Nat), aWins p.1 p.2 m.radiant_win) else (0, 0))).sum

/-- The per-match `hero_synergy` delta at pair key `k`. -/
def synergyDelta (m : MatchRec) (k : Nat × Nat) : Nat × Nat :=
  ((teamPairs m.radiant_heroes).map
    (fun p => if pkey p.1 p.2 = k
      then ((1 : Nat), if m.radiant_win then 1 else 0) else (0, 0))).sum +
  ((teamPairs m.dire_heroes).map
    (fun p => if pkey p.1 p.2 = k
      then ((1 : Nat), if !m.radiant_win then 1 else 0) else (0, 0))).sum

theorem lookupAgg_applyMatchAgg_stats (a : Aggregates) (m : MatchRec) (h : Nat) :
    lookupAgg (applyMatchAgg a m).hero_stats h
      = lookupAgg a.hero_stats h + statDelta m h := by
  show lookupAgg
      (applyHeroStats
        (applyHeroStats a.hero_stats m.radiant_heroes
          (if m.radiant_win then 1 else 0))
        m.dire_heroes (if m.radiant_win then 0 else 1)) h = _
  unfold applyHeroStats
  rw [lookupAgg_foldl_upsert _ (fun x => x)
      (fun _ => if m.radiant_win then 0 else 1) (fun _ _ => rfl),
    lookupAgg_foldl_upsert _ (fun x => x)
      (fun _ => if m.radiant_win then 1 else 0) (fun _ _ => rfl),
    add_assoc]
  rfl

theorem lookupAgg_applyMatchAgg_matchups (a : Aggregates) (m : MatchRec)
    (k : Nat × Nat) :
    lookupAgg (applyMatchAgg a m).hero_matchups k
      = lookupAgg a.hero_matchups k + matchupDelta m k := by
  show lookupAgg
      (applyMatchups a.hero_matchups m.radiant_heroes m.dire_heroes
        m.radiant_win) k = _
  rw [applyMatchups_eq_foldl, lookupAgg_foldl_matchupStep]
  rfl

theorem lookupAgg_applyMatchAgg_synergy (a : Aggregates) (m : MatchRec)
    (k : Nat × Nat) :
    lookupAgg (applyMatchAgg a m).hero_synergy k
      = lookupAgg a.hero_synergy k + synergyDelta m k := by
  show lookupAgg
      (applySynergy
        (applySynergy a.hero_synergy m.radiant_heroes m.radiant_win)
        m.dire_heroes (!m.radiant_win)) k = _
  unfold applySynergy
  rw [lookupAgg_foldl_upsert _ (fun p : Nat × Nat => pkey p.1 p.2)
      (fun _ => if !m.radiant_win then 1 else 0) (fun _ _ => rfl),
    lookupAgg_foldl_upsert _ (fun p : Nat × Nat => pkey p.1 p.2)
      (fun _ => if m.radiant_win then 1 else 0) (fun _ _ => rfl),
    add_assoc]
  rfl

theorem lookupAgg_foldl_applyMatchAgg_stats :
    ∀ (L : List MatchRec) (a : Aggregates) (h : Nat),
      lookupAgg ((L.foldl applyMatchAgg a).hero_stats) h
        = lookupAgg a.hero_stats h + (L.map (fun m => statDelta m h)).sum := by
  intro L
  induction L with
  | nil => intro a h; simp
  | cons m L ih =>
    intro a h
    simp only [List.foldl_cons, List.map_cons, List.sum_cons]
    rw [ih, lookupAgg_applyMatchAgg_stats, add_assoc]

theorem lookupAgg_foldl_applyMatchAgg_matchups :
    ∀ (L : List MatchRec) (a : Aggregates) (k : Nat × Nat),
      lookupAgg ((L.foldl applyMatchAgg a).hero_matchups) k
        = lookupAgg a.hero_matchups k + (L.map (fun m => matchupDelta m k)).sum := by
  intro L
  induction L with
  | nil => intro a k; simp
  | cons m L ih =>
    intro a k
    simp only [List.foldl_cons, List.map_cons, List.sum_cons]
    rw [ih, lookupAgg_applyMatchAgg_matchups, add_assoc]

theorem lookupAgg_foldl_applyMatchAgg_synergy :
    ∀ (L : List MatchRec) (a : Aggregates) (k : Nat × Nat),
      lookupAgg ((L.foldl applyMatchAgg a).hero_synergy) k
        = lookupAgg a.hero_synergy k + (L.map (fun m => synergyDelta m k)).sum := by
  intro L
  induction L with
  | nil => intro a k; simp
  | cons m L ih =>
    intro a k
    simp only [List.foldl_cons, List.map_cons, List.sum_cons]
    rw [ih, lookupAgg_applyMatchAgg_synergy, add_assoc]

theorem saveMatch_blocked (s : DBState) (m : MatchRec)
    (h : modeBlocked m = true) : saveMatch s m = s := by
  simp [saveMatch, h]

theorem saveMatch_existing (s : DBState) (m : MatchRec)
    (h1 : modeBlocked m = false) (h2 : matchExists s m.match_id = true) :
    saveMatch s m = s := by
  simp [saveMatch, h1, h2]

theorem saveMatch_new_short (s : DBState) (m : MatchRec)
    (h1 : modeBlocked m = false) (h2 : matchExists s m.match_id = false)
    (h3 : durationShort m = true) :
    saveMatch s m = { s with «matches» := s.«matches» ++ [m] } := by
  simp [saveMatch, h1, h2, h3]

theorem saveMatch_new_long (s : DBState) (m : MatchRec)
    (h1 : modeBlocked m = false) (h2 : matchExists s m.match_id = false)
    (h3 : durationShort m = false) :
    saveMatch s m =
      { «matches» := s.«matches» ++ [m]
        match_players := insertPlayers s.match_players m.match_id m.players
        aggs := applyMatchAgg s.aggs m } := by
  simp [saveMatch, h1, h2, h3]

theorem matchExists_iff (s : DBState) (id : Nat) :
    matchExists s id = true ↔ id ∈ s.«matches».map MatchRec.match_id := by
  simp only [matchExists, List.any_eq_true, decide_eq_true_eq, List.mem_map]

theorem rebuildAggregates_append (L : List MatchRec) (m : MatchRec) :
    rebuildAggregates (L ++ [m])
      = if durKeep m then applyMatchAgg (rebuildAggregates L) m
        else rebuildAggregates L := by
  unfold rebuildAggregates
  rw [List.filter_append]
  by_cases hk : durKeep m = true
  · rw [if_pos hk]
    simp [hk, List.foldl_append]
  · rw [if_neg hk]
    have hk' : durKeep m = false := Bool.eq_false_iff.mpr hk
    simp [hk']

/-- The running invariant of save-only reachable states: match ids are
unique, every stored match passed the mode gate, and the aggregate tables
are exactly the rebuild of the stored matches (so they reflect precisely
the duration-eligible stored matches). -/
theorem reachable_invariant (s : DBState) (h : Reachable s) :
    (s.«matches».map MatchRec.match_id).Nodup ∧
    (∀ m ∈ s.«matches», modeBlocked m = false) ∧
    s.aggs = rebuildAggregates s.«matches» := by
  induction h with
  | empty => exact ⟨List.nodup_nil, by simp [emptyState], rfl⟩
  | step s m _ ih =>
    obtain ⟨hnd, hblk, hagg⟩ := ih
    by_cases hb : modeBlocked m = true
    · rw [saveMatch_blocked s m hb]
      exact ⟨hnd, hblk, hagg⟩
    · have hb' : modeBlocked m = false := Bool.eq_false_iff.mpr hb
      by_cases he : matchExists s m.match_id = true
      · rw [saveMatch_existing s m hb' he]
        exact ⟨hnd, hblk, hagg⟩
      · have he' : matchExists s m.match_id = false := Bool.eq_false_iff.mpr he
        have hnotin : m.match_id ∉ s.«matches».map MatchRec.match_id :=
          fun hmem => he ((matchExists_iff s m.match_id).mpr hmem)
        have hnd' : ((s.«matches» ++ [m]).map MatchRec.match_id).Nodup := by
          rw [List.map_append]
          simp only [List.map_cons, List.map_nil]
          rw [List.nodup_append]
          exact ⟨hnd, List.nodup_singleton _,
            by simpa [List.disjoint_singleton] using hnotin⟩
        have hblk' : ∀ m' ∈ s.«matches» ++ [m], modeBlocked m' = false := by
          intro m' hm'
          rcases List.mem_append.mp hm' with h | h
          · exact hblk m' h
          · rw [List.mem_singleton.mp h]
            exact hb'
        by_cases hd : durationShort m = true
        · rw [saveMatch_new_short s m hb' he' hd]
          refine ⟨hnd', hblk', ?_⟩
          rw [rebuildAggregates_append, if_neg (by simp [durKeep, hd])]
          exact hagg
        · have hd' : durationShort m = false := Bool.eq_false_iff.mpr hd
          rw [saveMatch_new_long s m hb' he' hd']
          refine ⟨hnd', hblk', ?_⟩
          rw [rebuildAggregates_append, if_pos (by simp [durKeep, hd'])]
          rw [hagg]

/-- Replaying `save_match` over a list of gate-passing matches with fresh,
pairwise-distinct ids appends them to the `matches` table and folds the
aggregate deltas of the duration-eligible ones, in list order. -/
theorem foldl_saveMatch_fresh :
    ∀ (l : List MatchRec) (s : DBState),
      (∀ m ∈ l, modeBlocked m = false) →
      (∀ m ∈ l, m.match_id ∉ s.«matches».map MatchRec.match_id) →
      (l.map MatchRec.match_id).Nodup →
      (l.foldl saveMatch s).«matches» = s.«matches» ++ l ∧
      (l.foldl saveMatch s).aggs
        = (l.filter durKeep).foldl applyMatchAgg s.aggs := by
  intro l
  induction l with
  | nil => intro s _ _ _; exact ⟨(List.append_nil _).symm, rfl⟩
  | cons m l ih =>
    intro s hblk hfresh hnd
    have hb : modeBlocked m = false := hblk m (List.mem_cons_self m l)
    have hex : matchExists s m.match_id = false :=
      Bool.eq_false_iff.mpr
        (fun h => hfresh m (List.mem_cons_self m l) ((matchExists_iff s _).mp h))
    have hnd2 : (m.match_id :: l.map MatchRec.match_id).Nodup := by
      simpa using hnd
    have hndtl : (l.map MatchRec.match_id).Nodup := (List.nodup_cons.mp hnd2).2
    have hhead : m.match_id ∉ l.map MatchRec.match_id := (List.nodup_cons.mp hnd2).1
    by_cases hd : durationShort m = true
    · rw [List.foldl_cons, saveMatch_new_short s m hb hex hd]
      have hfresh' : ∀ m' ∈ l,
          m'.match_id ∉ (s.«matches» ++ [m]).map MatchRec.match_id := by
        intro m' hm' hmem
        rw [List.map_append] at hmem
        rcases List.mem_append.mp hmem with h | h
        · exact hfresh m' (List.mem_cons_of_mem m hm') h
        · simp only [List.map_cons, List.map_nil, List.mem_singleton] at h
          exact hhead (h ▸ List.mem_map_of_mem MatchRec.match_id hm')
      obtain ⟨h1, h2⟩ := ih { s with «matches» := s.«matches» ++ [m] }
        (fun m' hm' => hblk m' (List.mem_cons_of_mem m hm')) hfresh' hndtl
      refine ⟨?_, ?_⟩
      · rw [h1]
        simp
      · rw [h2, List.filter_cons, if_neg (by simp [durKeep, hd])]
    · have hd' : durationShort m = false := Bool.eq_false_iff.mpr hd
      rw [List.foldl_cons, saveMatch_new_long s m hb hex hd']
      have hfresh' : ∀ m' ∈ l,
          m'.match_id ∉ ((s.«matches» ++ [m]).map MatchRec.match_id) := by
        intro m' hm' hmem
        rw [List.map_append] at hmem
        rcases List.mem_append.mp hmem with h | h
        · exact hfresh m' (List.mem_cons_of_mem m hm') h
        · simp only [List.map_cons, List.map_nil, List.mem_singleton] at h
          exact hhead (h ▸ List.mem_map_of_mem MatchRec.match_id hm')
      obtain ⟨h1, h2⟩ := ih
        { «matches» := s.«matches» ++ [m]
          match_players := insertPlayers s.match_players m.match_id m.players
          aggs := applyMatchAgg s.aggs m }
        (fun m' hm' => hblk m' (List.mem_cons_of_mem m hm')) hfresh' hndtl
      refine ⟨?_, ?_⟩
      · rw [h1]
        simp
      · rw [h2, List.filter_cons, if_pos (by simp [durKeep, hd'])]
        rfl

theorem modeBlocked_false_iff (m : MatchRec) :
    modeBlocked m = false ↔
      ∃ gm lt, m.game_mode = some gm ∧ m.lobby_type = some lt ∧
        (gm, lt) ∈ ALLOWED_GAME_MODE_PAIRS := by
  unfold modeBlocked
  cases hgm : m.game_mode with
  | none => simp
  | some gm =>
    cases hlt : m.lobby_type with
    | none => simp
    | some lt => simp

theorem mem_insertPlayers (mid : Nat) :
    ∀ (ps : List PlayerRow) (t : List MatchPlayerRow)
      (p : MatchPlayerRow), p ∈ insertPlayers t mid ps →
      p ∈ t ∨ p.match_id = mid := by
  intro ps
  induction ps with
  | nil => intro t p hp; exact Or.inl hp
  | cons q ps ih =>
    intro t p hp
    have hp' : p ∈ insertPlayers
        (insertPlayerIgnore t ⟨mid, q.player_slot, q.hero_id, q.is_radiant⟩)
        mid ps := hp
    rcases ih _ p hp' with h | h
    · simp only [insertPlayerIgnore] at h
      split at h
      · exact Or.inl h
      · rcases List.mem_append.mp h with h2 | h2
        · exact Or.inl h2
        · right
          rw [List.mem_singleton.mp h2]
    · exact Or.inr h

/-- Reachable-state invariant for `match_players`: each player row belongs
to a stored match that passed the duration filter (the aggregates of which
are therefore reflected). -/
theorem reachable_players (s : DBState) (h : Reachable s) :
    ∀ p ∈ s.match_players, ∃ row ∈ s.«matches»,
      row.match_id = p.match_id ∧ durKeep row = true := by
  induction h with
  | empty => intro p hp; cases hp
  | step s m _ ih =>
    by_cases hb : modeBlocked m = true
    · rw [saveMatch_blocked s m hb]
      exact ih
    · have hb' : modeBlocked m = false := Bool.eq_false_iff.mpr hb
      by_cases he : matchExists s m.match_id = true
      · rw [saveMatch_existing s m hb' he]
        exact ih
      · have he' : matchExists s m.match_id = false := Bool.eq_false_iff.mpr he
        by_cases hd : durationShort m = true
        · rw [saveMatch_new_short s m hb' he' hd]
          intro p hp
          obtain ⟨row, hrow, h1, h2⟩ := ih p hp
          exact ⟨row, List.mem_append_left _ hrow, h1, h2⟩
        · have hd' : durationShort m = false := Bool.eq_false_iff.mpr hd
          rw [saveMatch_new_long s m hb' he' hd']
          intro p hp
          rcases mem_insertPlayers m.match_id m.players s.match_players p hp with
            h | h
          · obtain ⟨row, hrow, h1, h2⟩ := ih p h
            exact ⟨row, List.mem_append_left _ hrow, h1, h2⟩
          · exact ⟨m, List.mem_append_right _ (List.mem_singleton_self m),
              h.symm, by simp [durKeep, hd']⟩

/-- Aggregate-table equality as key-to-value maps: the semantic equality of
the three SQL tables (row order is not observable). -/
def aggLookupEq (a b : Aggregates) : Prop :=
  (∀ h, lookupAgg a.hero_stats h = lookupAgg b.hero_stats h) ∧
  (∀ k, lookupAgg a.hero_matchups k = lookupAgg b.hero_matchups k) ∧
  (∀ k, lookupAgg a.hero_synergy k = lookupAgg b.hero_synergy k)

/-- Replaying `save_match` on a list of matches starting from the empty
datastore. -/
def replayAll (l : List MatchRec) : DBState := l.foldl saveMatch emptyState

/-- Folding the per-match aggregate deltas is order-insensitive up to table
equality: each table reads as base plus a permutation-invariant sum. -/
theorem foldl_applyMatchAgg_lookupEq (l1 l2 : List MatchRec) (hp : l1.Perm l2)
    (a : Aggregates) :
    aggLookupEq (l1.foldl applyMatchAgg a) (l2.foldl applyMatchAgg a) := by
  refine ⟨fun h => ?_, fun k => ?_, fun k => ?_⟩
  · rw [lookupAgg_foldl_applyMatchAgg_stats, lookupAgg_foldl_applyMatchAgg_stats,
      (hp.map (fun m => statDelta m h)).sum_eq]
  · rw [lookupAgg_foldl_applyMatchAgg_matchups,
      lookupAgg_foldl_applyMatchAgg_matchups,
      (hp.map (fun m => matchupDelta m k)).sum_eq]
  · rw [lookupAgg_foldl_applyMatchAgg_synergy,
      lookupAgg_foldl_applyMatchAgg_synergy,
      (hp.map (fun m => synergyDelta m k)).sum_eq]

theorem replayAll_aggs (l : List MatchRec)
    (hblk : ∀ m ∈ l, modeBlocked m = false)
    (hnd : (l.map MatchRec.match_id).Nodup) :
    (replayAll l).aggs = (l.filter durKeep).foldl applyMatchAgg emptyAggregates :=
  (foldl_saveMatch_fresh l emptyState hblk
    (by intro m hm; simp [emptyState]) hnd).2

/-- Claim C1: in every state reachable through `save_match` calls,
`recalculate_all_aggregates` leaves the three aggregate tables equal (as
key-to-value maps) to those obtained by replaying `save_match` on the
retained matches in any order starting from the empty datastore; and after
`delete_matches_and_recalculate S`, the aggregate tables equal those of a
replay, in any order, of exactly the retained matches not in `S` — so no
table reflects any deleted match and every remaining match passing the
duration filter is fully reflected. -/
theorem c1_rebuild_equivalence (s : DBState) (hs : Reachable s)
    (S : List Nat) (l l' : List MatchRec)
    (hl : l.Perm s.«matches»)
    (hl' : l'.Perm (s.«matches».filter (fun m => !(S.contains m.match_id)))) :
    aggLookupEq (recalculateAllAggregates s).aggs (replayAll l).aggs ∧
    aggLookupEq (deleteMatchesAndRecalculate S s).aggs (replayAll l').aggs := by
  obtain ⟨hnd, hblk, hagg⟩ := reachable_invariant s hs
  constructor
  · have hblk_l : ∀ m ∈ l, modeBlocked m = false :=
      fun m hm => hblk m (hl.mem_iff.mp hm)
    have hnd_l : (l.map MatchRec.match_id).Nodup :=
      ((hl.map MatchRec.match_id).nodup_iff).mpr hnd
    have h1 : (recalculateAllAggregates s).aggs
        = (s.«matches».filter durKeep).foldl applyMatchAgg emptyAggregates := rfl
    rw [h1, replayAll_aggs l hblk_l hnd_l]
    exact foldl_applyMatchAgg_lookupEq _ _ ((hl.filter durKeep).symm) _
  · by_cases hS : S = []
    · subst hS
      have hfe : s.«matches».filter
          (fun m => !(([] : List Nat).contains m.match_id)) = s.«matches» := by
        simp
      rw [hfe] at hl'
      have hblk_l : ∀ m ∈ l', modeBlocked m = false :=
        fun m hm => hblk m (hl'.mem_iff.mp hm)
      have hnd_l : (l'.map MatchRec.match_id).Nodup :=
        ((hl'.map MatchRec.match_id).nodup_iff).mpr hnd
      have h0 : deleteMatchesAndRecalculate [] s = s := by
        simp [deleteMatchesAndRecalculate]
      rw [h0, replayAll_aggs l' hblk_l hnd_l, hagg]
      exact foldl_applyMatchAgg_lookupEq _ _ ((hl'.filter durKeep).symm) _
    · have hmsub : ∀ m ∈ s.«matches».filter
          (fun m => !(S.contains m.match_id)), m ∈ s.«matches» :=
        fun m hm => List.mem_of_mem_filter hm
      have hblk_l : ∀ m ∈ l', modeBlocked m = false :=
        fun m hm => hblk m (hmsub m (hl'.mem_iff.mp hm))
      have hnd_f : ((s.«matches».filter
          (fun m => !(S.contains m.match_id))).map MatchRec.match_id).Nodup :=
        hnd.sublist ((List.filter_sublist _).map MatchRec.match_id)
      have hnd_l : (l'.map MatchRec.match_id).Nodup :=
        ((hl'.map MatchRec.match_id).nodup_iff).mpr hnd_f
      have h1 : (deleteMatchesAndRecalculate S s).aggs
          = ((s.«matches».filter (fun m => !(S.contains m.match_id))).filter
              durKeep).foldl applyMatchAgg emptyAggregates := by
        simp [deleteMatchesAndRecalculate, hS, rebuildAggregates]
      rw [h1, replayAll_aggs l' hblk_l hnd_l]
      exact foldl_applyMatchAgg_lookupEq _ _ ((hl'.filter durKeep).symm) _

theorem matchExists_saveMatch_self (s : DBState) (m : MatchRec)
    (hb : modeBlocked m = false) :
    matchExists (saveMatch s m) m.match_id = true := by
  by_cases he : matchExists s m.match_id = true
  · rw [saveMatch_existing s m hb he]
    exact he
  · have he' : matchExists s m.match_id = false := Bool.eq_false_iff.mpr he
    by_cases hd : durationShort m = true
    · rw [saveMatch_new_short s m hb he' hd, matchExists_iff]
      simp
    · rw [saveMatch_new_long s m hb he' (Bool.eq_false_iff.mpr hd),
        matchExists_iff]
      simp

/-- Claim C2: `save_match` is idempotent — saving the same match record
twice leaves the datastore exactly as after the first save (the second call
hits the existing `matches` row, or the mode gate, and changes nothing). -/
theorem c2_save_match_idempotent (s : DBState) (m : MatchRec) :
    saveMatch (saveMatch s m) m = saveMatch s m := by
  by_cases hb : modeBlocked m = true
  · rw [saveMatch_blocked (saveMatch s m) m hb]
  · have hb' : modeBlocked m = false := Bool.eq_false_iff.mpr hb
    exact saveMatch_existing _ m hb' (matchExists_saveMatch_self s m hb')

/-- Claim C3: `save_match` refuses the write entirely when `game_mode` or
`lobby_type` is null or the pair is not allow-listed, and consequently every
`matches` row of every save-reachable state carries a non-null pair inside
`ALLOWED_GAME_MODE_PAIRS`. -/
theorem c3_mode_gate :
    (∀ (s : DBState) (m : MatchRec), modeBlocked m = true → saveMatch s m = s) ∧
    (∀ s : DBState, Reachable s → ∀ m ∈ s.«matches»,
      ∃ gm lt, m.game_mode = some gm ∧ m.lobby_type = some lt ∧
        (gm, lt) ∈ ALLOWED_GAME_MODE_PAIRS) := by
  refine ⟨saveMatch_blocked, fun s hs m hm => ?_⟩
  exact (modeBlocked_false_iff m).mp ((reachable_invariant s hs).2.1 m hm)

/-- Claim C4: a new, gate-passing match with non-null duration below
`MIN_MATCH_DURATION_SECONDS` adds only its `matches` row; in every
save-reachable state the aggregate tables equal the rebuild of the stored
matches (which folds exactly the matches passing
`duration IS NULL OR duration >= MIN_MATCH_DURATION_SECONDS`); and
`recalculate_all_aggregates` applies that same filter. -/
theorem c4_duration_gate :
    (∀ (s : DBState) (m : MatchRec), modeBlocked m = false →
        matchExists s m.match_id = false → durationShort m = true →
        saveMatch s m = { s with «matches» := s.«matches» ++ [m] }) ∧
    (∀ s : DBState, Reachable s → s.aggs = rebuildAggregates s.«matches») ∧
    (∀ s : DBState, (recalculateAllAggregates s).aggs
        = (s.«matches».filter durKeep).foldl applyMatchAgg emptyAggregates) :=
  ⟨saveMatch_new_short, fun s hs => (reachable_invariant s hs).2.2,
    fun _ => rfl⟩

/-- Claim C10: for a new, gate-passing match whose duration is non-null and
short, `save_match` leaves `match_players` and all aggregate tables
untouched (even when a players list is supplied) and appends only the
`matches` row; moreover, in every save-reachable state each `match_players`
row belongs to a stored match passing the duration filter. -/
theorem c10_short_match_frame :
    (∀ (s : DBState) (m : MatchRec), modeBlocked m = false →
        matchExists s m.match_id = false → durationShort m = true →
        (saveMatch s m).match_players = s.match_players ∧
        (saveMatch s m).aggs = s.aggs ∧
        (saveMatch s m).«matches» = s.«matches» ++ [m]) ∧
    (∀ s : DBState, Reachable s → ∀ p ∈ s.match_players,
        ∃ row ∈ s.«matches», row.match_id = p.match_id ∧ durKeep row = true) := by
  refine ⟨fun s m h1 h2 h3 => ?_, reachable_players⟩
  rw [saveMatch_new_short s m h1 h2 h3]
  exact ⟨rfl, rfl, rfl⟩

/-- Scenario seed: one ranked 30-minute match, radiant heroes 1-5 beating
dire heroes 6-10, with one player row. -/
def wMatch1 : MatchRec :=
  { match_id := 1, start_time := 0, duration := some 1800, patch := none
    avg_rank_tier := none, rank_bucket := none, radiant_win := true
    radiant_heroes := [1, 2, 3, 4, 5], dire_heroes := [6, 7, 8, 9, 10]
    game_mode := some 22, lobby_type := some 7
    players := [⟨some 1, 0, true⟩] }

/-- Scenario seed: a 10-minute ranked match (below the duration gate),
with a players list supplied. -/
def wShortMatch : MatchRec :=
  { match_id := 3, start_time := 0, duration := some 600, patch := none
    avg_rank_tier := none, rank_bucket := none, radiant_win := true
    radiant_heroes := [1, 2, 3, 4, 5], dire_heroes := [6, 7, 8, 9, 10]
    game_mode := some 22, lobby_type := some 7
    players := [⟨some 1, 0, true⟩] }

/-- Scenario seed: a Turbo match (game_mode 23), outside the allow-list. -/
def wBadModeMatch : MatchRec :=
  { match_id := 2, start_time := 0, duration := some 1800, patch := none
    avg_rank_tier := none, rank_bucket := none, radiant_win := true
    radiant_heroes := [1, 2, 3, 4, 5], dire_heroes := [6, 7, 8, 9, 10]
    game_mode := some 23, lobby_type := some 7
    players := [] }

theorem c1_rebuild_equivalence_witness :
    aggLookupEq (recalculateAllAggregates (saveMatch emptyState wMatch1)).aggs
      (replayAll [wMatch1]).aggs ∧
    aggLookupEq
      (deleteMatchesAndRecalculate [1] (saveMatch emptyState wMatch1)).aggs
      (replayAll []).aggs :=
  c1_rebuild_equivalence (saveMatch emptyState wMatch1)
    (Reachable.step _ _ Reachable.empty) [1] [wMatch1] []
    (by decide) (by decide)

theorem c3_mode_gate_witness :
    modeBlocked wBadModeMatch = true ∧
    saveMatch emptyState wBadModeMatch = emptyState ∧
    (∃ gm lt, wMatch1.game_mode = some gm ∧ wMatch1.lobby_type = some lt ∧
      (gm, lt) ∈ ALLOWED_GAME_MODE_PAIRS) :=
  ⟨by decide, c3_mode_gate.1 emptyState wBadModeMatch (by decide),
   c3_mode_gate.2 (saveMatch emptyState wMatch1)
     (Reachable.step _ _ Reachable.empty) wMatch1 (by decide)⟩

theorem c4_duration_gate_witness :
    modeBlocked wShortMatch = false ∧
    matchExists emptyState wShortMatch.match_id = false ∧
    durationShort wShortMatch = true ∧
    saveMatch emptyState wShortMatch
      = { emptyState with «matches» := emptyState.«matches» ++ [wShortMatch] } ∧
    (saveMatch emptyState wMatch1).aggs
      = rebuildAggregates (saveMatch emptyState wMatch1).«matches» :=
  ⟨by decide, by decide, by decide,
   c4_duration_gate.1 emptyState wShortMatch (by decide) (by decide) (by decide),
   c4_duration_gate.2.1 _ (Reachable.step _ _ Reachable.empty)⟩

theorem c10_short_match_frame_witness :
    ((saveMatch emptyState wShortMatch).match_players
        = emptyState.match_players ∧
      (saveMatch emptyState wShortMatch).aggs = emptyState.aggs ∧
      (saveMatch emptyState wShortMatch).«matches»
        = emptyState.«matches» ++ [wShortMatch]) ∧
    (∃ row ∈ (saveMatch emptyState wMatch1).«matches»,
      row.match_id = (⟨1, 0, some 1, true⟩ : MatchPlayerRow).match_id ∧
      durKeep row = true) :=
  ⟨c10_short_match_frame.1 emptyState wShortMatch
      (by decide) (by decide) (by decide),
   c10_short_match_frame.2 (saveMatch emptyState wMatch1)
     (Reachable.step _ _ Reachable.empty) ⟨1, 0, some 1, true⟩ (by decide)⟩

theorem lookupAgg_mem {κ : Type} [DecidableEq κ] (t : AggTable κ) (k : κ)
    (h : lookupAgg t k ≠ (0, 0)) : (k, lookupAgg t k) ∈ t := by
  unfold lookupAgg findAgg? at h ⊢
  cases hf : t.find? (fun kv => decide (kv.1 = k)) with
  | none => rw [hf] at h; simp at h
  | some kv =>
    have hmem := List.mem_of_find?_eq_some hf
    have hkey : kv.1 = k := by simpa using List.find?_some hf
    simp only [Option.map_some', Option.getD_some]
    rw [← hkey]
    exact hmem

theorem sum_map_eq_zero {α : Type} (l : List α) (f : α → Nat × Nat)
    (h : ∀ x ∈ l, f x = (0, 0)) : (l.map f).sum = (0, 0) := by
  induction l with
  | nil => rfl
  | cons y l ih =>
    rw [List.map_cons, List.sum_cons, h y (List.mem_cons_self y l),
      ih (fun x hx => h x (List.mem_cons_of_mem y hx))]
    rfl

theorem sum_map_single {α : Type} (l : List α) (f : α → Nat × Nat) (x : α)
    (hnd : l.Nodup) (hx : x ∈ l)
    (h : ∀ y ∈ l, y ≠ x → f y = (0, 0)) : (l.map f).sum = f x := by
  induction l with
  | nil => cases hx
  | cons y l ih =>
    rw [List.map_cons, List.sum_cons]
    by_cases hxy : y = x
    · subst hxy
      have hnotin : y ∉ l := (List.nodup_cons.mp hnd).1
      rw [sum_map_eq_zero l f
        (fun z hz => h z (List.mem_cons_of_mem y hz)
          (fun he => hnotin (he ▸ hz)))]
      rw [show ((0, 0) : Nat × Nat) = 0 from rfl, add_zero]
    · rw [h y (List.mem_cons_self y l) hxy]
      have hx' : x ∈ l := by
        rcases List.mem_cons.mp hx with h1 | h1
        · exact absurd h1.symm hxy
        · exact h1
      rw [ih (List.nodup_cons.mp hnd).2 hx'
        (fun z hz hne => h z (List.mem_cons_of_mem y hz) hne)]
      rw [show ((0, 0) : Nat × Nat) = 0 from rfl, zero_add]

theorem pkey_eq_iff (a b c d : Nat) :
    pkey a b = pkey c d ↔ (a = c ∧ b = d) ∨ (a = d ∧ b = c) := by
  unfold pkey
  rw [Prod.mk.injEq]
  omega

theorem mem_crossPairs (m : MatchRec) (p : Nat × Nat) :
    p ∈ crossPairs m ↔ p.1 ∈ m.radiant_heroes ∧ p.2 ∈ m.dire_heroes := by
  unfold crossPairs
  rw [List.mem_flatMap]
  constructor
  · rintro ⟨a, ha, hmem⟩
    obtain ⟨b, hb, hba⟩ := List.mem_map.mp hmem
    rw [← hba]
    exact ⟨ha, hb⟩
  · rintro ⟨h1, h2⟩
    exact ⟨p.1, h1, List.mem_map.mpr ⟨p.2, h2, rfl⟩⟩

theorem crossPairs_nodup (m : MatchRec)
    (hr : m.radiant_heroes.Nodup) (hd : m.dire_heroes.Nodup) :
    (crossPairs m).Nodup := by
  unfold crossPairs
  rw [List.nodup_flatMap]
  constructor
  · intro r _
    exact hd.map (fun x y hxy => by simpa using congrArg Prod.snd hxy)
  · apply List.Pairwise.imp ?_ hr
    intro a b hab x hxa hxb
    obtain ⟨xa, _, hxa'⟩ := List.mem_map.mp hxa
    obtain ⟨xb, _, hxb'⟩ := List.mem_map.mp hxb
    exact hab (congrArg Prod.fst (hxa'.trans hxb'.symm))

theorem matchupDelta_pair (m : MatchRec)
    (hnd : (m.radiant_heroes ++ m.dire_heroes).Nodup)
    (r0 d0 : Nat) (hr : r0 ∈ m.radiant_heroes) (hd : d0 ∈ m.dire_heroes) :
    matchupDelta m (pkey r0 d0) = (1, aWins r0 d0 m.radiant_win) := by
  have hdisj := List.disjoint_of_nodup_append hnd
  have hrn := hnd.of_append_left
  have hdn := hnd.of_append_right
  have hne : r0 ≠ d0 := fun he => hdisj hr (he ▸ hd)
  unfold matchupDelta
  rw [sum_map_single (crossPairs m) _ (r0, d0) (crossPairs_nodup m hrn hdn)
    ((mem_crossPairs m (r0, d0)).mpr ⟨hr, hd⟩) ?_]
  · rw [if_pos ⟨hne, rfl⟩]
  · intro y hy hyne
    obtain ⟨hy1, hy2⟩ := (mem_crossPairs m y).mp hy
    by_cases hdg : y.1 = y.2
    · exact if_neg (fun hcon => hcon.1 hdg)
    · apply if_neg
      rintro ⟨_, hpk⟩
      rcases (pkey_eq_iff y.1 y.2 r0 d0).mp hpk with ⟨e1, e2⟩ | ⟨e1, e2⟩
      · exact hyne (Prod.ext e1 e2)
      · exact hdisj (e1 ▸ hy1) hd

theorem pkey_comm (a b : Nat) : pkey a b = pkey b a := by
  unfold pkey
  rw [Prod.mk.injEq]
  omega

theorem getHeroMatchupRows_mem_of_row (s : DBState) (heroId minG a b g w : Nat)
    (hmem : ((a, b), (g, w)) ∈ s.aggs.hero_matchups)
    (hq : a = heroId ∨ b = heroId) (hg : minG ≤ g) :
    (if a = heroId
      then ({ hero_id := b, games := g, wins := (w : Int)
              wr_vs := if 0 < g then round4 (Rat.divInt (w : Int) (g : Int))
                else 0 } : MatchupQueryRow)
      else { hero_id := a, games := g, wins := (g : Int) - (w : Int)
             wr_vs := if 0 < g then
               round4 (Rat.divInt ((g : Int) - (w : Int)) (g : Int))
               else 0 })
      ∈ getHeroMatchupRows s heroId minG := by
  unfold getHeroMatchupRows
  apply List.mem_map.mpr
  refine ⟨((a, b), (g, w)), List.mem_filter.mpr ⟨hmem, ?_⟩, rfl⟩
  simp only [Bool.and_eq_true, Bool.or_eq_true, decide_eq_true_eq]
  exact ⟨hq, hg⟩

/-- Claim C5: after parsing one valid detail payload into `m` and saving it
from the empty datastore, `get_hero_matchup_rows(h, min_games=1)` contains,
for every hero `h` of the match and every opposing hero `h'`, a row for
opponent `h'` with `games = 1` and hero-side `wins` equal to `1` exactly
when `h`'s team won; and the stored canonical pair value has `wins = 1`
exactly when the smaller-id hero of the pair is on the winning team — the
correctness of the `(r < d) == radiant_win` delta. -/
theorem c5_ingestion_round_trip (p : DetailPayload) (m : MatchRec)
    (_hpar : parseMatchDetails p = some m)
    (hnd : (m.radiant_heroes ++ m.dire_heroes).Nodup)
    (hgate : modeBlocked m = false) (hdur : durationShort m = false)
    (h h' : Nat)
    (hside : (h ∈ m.radiant_heroes ∧ h' ∈ m.dire_heroes) ∨
      (h ∈ m.dire_heroes ∧ h' ∈ m.radiant_heroes)) :
    (∃ row ∈ getHeroMatchupRows (saveMatch emptyState m) h 1,
        row.hero_id = h' ∧ row.games = 1 ∧
        row.wins = (if decide (h ∈ m.radiant_heroes) = m.radiant_win
          then (1 : Int) else 0)) ∧
    ((lookupAgg (saveMatch emptyState m).aggs.hero_matchups (pkey h h')).2 = 1
      ↔ decide (min h h' ∈ m.radiant_heroes) = m.radiant_win) := by
  have hdisj := List.disjoint_of_nodup_append hnd
  have haggs : (saveMatch emptyState m).aggs = applyMatchAgg emptyAggregates m := by
    rw [saveMatch_new_long emptyState m hgate rfl hdur]
    rfl
  have hlk : ∀ k, lookupAgg (saveMatch emptyState m).aggs.hero_matchups k
      = matchupDelta m k := by
    intro k
    rw [haggs, lookupAgg_applyMatchAgg_matchups,
      show lookupAgg emptyAggregates.hero_matchups k = (0, 0) from rfl,
      show ((0, 0) : Nat × Nat) = 0 from rfl, zero_add]
  have hvne : ∀ w : Nat, ((1 : Nat), w) ≠ ((0, 0) : Nat × Nat) :=
    fun w hcon => one_ne_zero (congrArg Prod.fst hcon)
  rcases hside with ⟨hr, hd⟩ | ⟨hr, hd⟩
  · -- h radiant, h' dire
    have hne : h ≠ h' := fun he => hdisj hr (he ▸ hd)
    have hdecr : decide (h ∈ m.radiant_heroes) = true := decide_eq_true hr
    have hv : lookupAgg (saveMatch emptyState m).aggs.hero_matchups (pkey h h')
        = (1, aWins h h' m.radiant_win) := by
      rw [hlk]
      exact matchupDelta_pair m hnd h h' hr hd
    have hmemtbl : (pkey h h', ((1 : Nat), aWins h h' m.radiant_win))
        ∈ (saveMatch emptyState m).aggs.hero_matchups := by
      have := lookupAgg_mem _ (pkey h h') (by rw [hv]; exact hvne _)
      rw [hv] at this
      exact this
    rcases Nat.lt_or_ge h h' with hlt | hge
    · have hpk : pkey h h' = (h, h') := by
        rw [pkey, Prod.mk.injEq]
        omega
      rw [hpk] at hmemtbl
      have hgrow := getHeroMatchupRows_mem_of_row (saveMatch emptyState m) h 1
        h h' 1 (aWins h h' m.radiant_win) hmemtbl (Or.inl rfl) (le_refl 1)
      rw [if_pos rfl] at hgrow
      refine ⟨⟨_, hgrow, rfl, rfl, ?_⟩, ?_⟩
      · rw [hdecr]
        unfold aWins
        rw [decide_eq_true hlt]
        cases m.radiant_win <;> simp
      · rw [hv, show min h h' = h by omega, hdecr]
        unfold aWins
        rw [decide_eq_true hlt]
        cases m.radiant_win <;> simp
    · have hgt : h' < h := by omega
      have hpk : pkey h h' = (h', h) := by
        rw [pkey, Prod.mk.injEq]
        omega
      rw [hpk] at hmemtbl
      have hgrow := getHeroMatchupRows_mem_of_row (saveMatch emptyState m) h 1
        h' h 1 (aWins h h' m.radiant_win) hmemtbl (Or.inr rfl) (le_refl 1)
      rw [if_neg (fun hc : h' = h => hne hc.symm)] at hgrow
      refine ⟨⟨_, hgrow, rfl, rfl, ?_⟩, ?_⟩
      · rw [hdecr]
        unfold aWins
        rw [decide_eq_false (by omega : ¬ h < h')]
        cases m.radiant_win <;> simp
      · rw [hv, show min h h' = h' by omega,
          decide_eq_false (fun hc : h' ∈ m.radiant_heroes => hdisj hc hd)]
        unfold aWins
        rw [decide_eq_false (by omega : ¬ h < h')]
        cases m.radiant_win <;> simp
  · -- h dire, h' radiant
    have hne : h ≠ h' := fun he => hdisj (he ▸ hd) hr
    have hdecr : decide (h ∈ m.radiant_heroes) = false :=
      decide_eq_false (fun hc => hdisj hc hr)
    have hv' : lookupAgg (saveMatch emptyState m).aggs.hero_matchups (pkey h' h)
        = (1, aWins h' h m.radiant_win) := by
      rw [hlk]
      exact matchupDelta_pair m hnd h' h hd hr
    have hv : lookupAgg (saveMatch emptyState m).aggs.hero_matchups (pkey h h')
        = (1, aWins h' h m.radiant_win) := by
      rw [pkey_comm]
      exact hv'
    have hmemtbl : (pkey h' h, ((1 : Nat), aWins h' h m.radiant_win))
        ∈ (saveMatch emptyState m).aggs.hero_matchups := by
      have := lookupAgg_mem _ (pkey h' h) (by rw [hv']; exact hvne _)
      rw [hv'] at this
      exact this
    rcases Nat.lt_or_ge h h' with hlt | hge
    · have hpk : pkey h' h = (h, h') := by
        rw [pkey, Prod.mk.injEq]
        omega
      rw [hpk] at hmemtbl
      have hgrow := getHeroMatchupRows_mem_of_row (saveMatch emptyState m) h 1
        h h' 1 (aWins h' h m.radiant_win) hmemtbl (Or.inl rfl) (le_refl 1)
      rw [if_pos rfl] at hgrow
      refine ⟨⟨_, hgrow, rfl, rfl, ?_⟩, ?_⟩
      · rw [hdecr]
        unfold aWins
        rw [decide_eq_false (by omega : ¬ h' < h)]
        cases m.radiant_win <;> simp
      · rw [hv, show min h h' = h by omega, hdecr]
        unfold aWins
        rw [decide_eq_false (by omega : ¬ h' < h)]
        cases m.radiant_win <;> simp
    · have hgt : h' < h := by omega
      have hpk : pkey h' h = (h', h) := by
        rw [pkey, Prod.mk.injEq]
        omega
      rw [hpk] at hmemtbl
      have hgrow := getHeroMatchupRows_mem_of_row (saveMatch emptyState m) h 1
        h' h 1 (aWins h' h m.radiant_win) hmemtbl (Or.inr rfl) (le_refl 1)
      rw [if_neg (fun hc : h' = h => hne hc.symm)] at hgrow
      refine ⟨⟨_, hgrow, rfl, rfl, ?_⟩, ?_⟩
      · rw [hdecr]
        unfold aWins
        rw [decide_eq_true hgt]
        cases m.radiant_win <;> simp
      · rw [hv, show min h h' = h' by omega, decide_eq_true hd]
        unfold aWins
        rw [decide_eq_true hgt]
        cases m.radiant_win <;> simp

/-- Scenario-1 detail payload: ranked 30-minute match, heroes 1-5 vs 6-10. -/
def wPayload1 : DetailPayload :=
  { match_id := some 1, start_time := some 0, duration := some 1800
    patch := none, avg_rank_tier := none, game_mode := some 22
    lobby_type := some 7, radiant_win := true
    players := some
      [⟨some 1, some 0⟩, ⟨some 2, some 1⟩, ⟨some 3, some 2⟩,
       ⟨some 4, some 3⟩, ⟨some 5, some 4⟩, ⟨some 6, some 128⟩,
       ⟨some 7, some 129⟩, ⟨some 8, some 130⟩, ⟨some 9, some 131⟩,
       ⟨some 10, some 132⟩] }

/-- The canonical record `_parse_match_details` produces for `wPayload1`. -/
def wParsed1 : MatchRec :=
  { match_id := 1, start_time := 0, duration := some 1800, patch := none
    avg_rank_tier := none, rank_bucket := some "unknown", radiant_win := true
    radiant_heroes := [1, 2, 3, 4, 5], dire_heroes := [6, 7, 8, 9, 10]
    game_mode := some 22, lobby_type := some 7
    players :=
      [⟨some 1, 0, true⟩, ⟨some 2, 1, true⟩, ⟨some 3, 2, true⟩,
       ⟨some 4, 3, true⟩, ⟨some 5, 4, true⟩, ⟨some 6, 128, false⟩,
       ⟨some 7, 129, false⟩, ⟨some 8, 130, false⟩, ⟨some 9, 131, false⟩,
       ⟨some 10, 132, false⟩] }

theorem c5_ingestion_round_trip_witness :
    parseMatchDetails wPayload1 = some wParsed1 ∧
    ((∃ row ∈ getHeroMatchupRows (saveMatch emptyState wParsed1) 1 1,
        row.hero_id = 6 ∧ row.games = 1 ∧
        row.wins = (if decide ((1 : Nat) ∈ wParsed1.radiant_heroes)
            = wParsed1.radiant_win then (1 : Int) else 0)) ∧
      ((lookupAgg (saveMatch emptyState wParsed1).aggs.hero_matchups
          (pkey 1 6)).2 = 1 ↔
        decide (min 1 6 ∈ wParsed1.radiant_heroes) = wParsed1.radiant_win)) :=
  ⟨by decide,
   c5_ingestion_round_trip wPayload1 wParsed1 (by decide) (by decide)
     (by decide) (by decide) 1 6 (Or.inl ⟨by decide, by decide⟩)⟩

/-- A full payload with 10 players, all hero ids non-zero, an exact 5+5
radiant/dire split by `player_slot` — and hero 1 on both teams. -/
def wSharedHeroPayload : DetailPayload :=
  { match_id := some 42, start_time := some 0, duration := some 1800
    patch := none, avg_rank_tier := none, game_mode := some 22
    lobby_type := some 7, radiant_win := true
    players := some
      [⟨some 1, some 0⟩, ⟨some 2, some 1⟩, ⟨some 3, some 2⟩,
       ⟨some 4, some 3⟩, ⟨some 5, some 4⟩, ⟨some 1, some 128⟩,
       ⟨some 7, some 129⟩, ⟨some 8, some 130⟩, ⟨some 9, some 131⟩,
       ⟨some 10, some 132⟩] }

/-- Claim C6 counterexample: `wSharedHeroPayload` satisfies every premise of
the claim (10 players, no zero hero id, exact 5+5 split by slot, shared
hero 1 across the two teams), yet `_parse_match_details` accepts it and
produces a canonical record containing hero 1 on both sides, instead of
rejecting it. -/
theorem c6_counterexample :
    (wSharedHeroPayload.players.getD []).length = 10 ∧
    ((wSharedHeroPayload.players.getD []).all
      (fun q => decide (q.hero_id.getD 0 ≠ 0))) = true ∧
    (radiantOf (wSharedHeroPayload.players.getD [])).length = 5 ∧
    (direOf (wSharedHeroPayload.players.getD [])).length = 5 ∧
    parseMatchDetails wSharedHeroPayload ≠ none ∧
    (parseMatchDetails wSharedHeroPayload).map
      (fun r => decide ((1 : Nat) ∈ r.radiant_heroes) &&
        decide ((1 : Nat) ∈ r.dire_heroes)) = some true := by
  decide

/-- Claim C6 amended: the Match Parser validates only the player count, the
presence of non-zero hero ids and the exact 5+5 slot split; it performs no
disjointness check, so any payload passing those checks — including one
whose radiant and dire hero sets share a hero — is accepted and yields the
canonical record. -/
theorem c6_no_disjointness_check (p : DetailPayload) (mid : Nat)
    (hmid : p.match_id = some mid) (hmid0 : mid ≠ 0)
    (hlen : (p.players.getD []).length = 10)
    (hhero : ∀ q ∈ p.players.getD [], q.hero_id.getD 0 ≠ 0)
    (hr5 : (radiantOf (p.players.getD [])).length = 5)
    (hd5 : (direOf (p.players.getD [])).length = 5) :
    parseMatchDetails p = some
      { match_id := mid
        start_time := p.start_time.getD 0
        duration := p.duration
        patch := p.patch
        avg_rank_tier := p.avg_rank_tier
        rank_bucket := some (rankBucketForTier p.avg_rank_tier)
        radiant_win := p.radiant_win
        radiant_heroes := radiantOf (p.players.getD [])
        dire_heroes := direOf (p.players.getD [])
        game_mode := p.game_mode
        lobby_type := p.lobby_type
        players := (p.players.getD []).map extractPlayerStats } := by
  have hany : ((p.players.getD []).any
      (fun q => decide (q.hero_id.getD 0 = 0))) = false := by
    rw [List.any_eq_false]
    intro q hq
    simpa using hhero q hq
  simp only [parseMatchDetails, hmid]
  rw [if_neg hmid0,
    if_neg (fun hc : (p.players.getD []).length ≠ 10 => hc hlen)]
  rw [hany]
  simp only [Bool.false_eq_true, if_false]
  rw [if_neg (fun hc : _ ∨ _ => hc.elim (fun h1 => h1 hr5) (fun h2 => h2 hd5))]

theorem c6_no_disjointness_check_witness :
    parseMatchDetails wSharedHeroPayload = some
      { match_id := 42
        start_time := 0
        duration := some 1800
        patch := none
        avg_rank_tier := none
        rank_bucket := some "unknown"
        radiant_win := true
        radiant_heroes := [1, 2, 3, 4, 5]
        dire_heroes := [1, 7, 8, 9, 10]
        game_mode := some 22
        lobby_type := some 7
        players :=
          [⟨some 1, 0, true⟩, ⟨some 2, 1, true⟩, ⟨some 3, 2, true⟩,
           ⟨some 4, 3, true⟩, ⟨some 5, 4, true⟩, ⟨some 1, 128, false⟩,
           ⟨some 7, 129, false⟩, ⟨some 8, 130, false⟩,
           ⟨some 9, 131, false⟩, ⟨some 10, 132, false⟩] } := by
  have h := c6_no_disjointness_check wSharedHeroPayload 42 rfl
    (by decide) (by decide) (by decide) (by decide) (by decide)
  rw [h]
  decide

theorem mem_insertSorted {α : Type} (le : α → α → Bool) (x y : α) :
    ∀ l : List α, y ∈ insertSorted le x l ↔ y = x ∨ y ∈ l := by
  intro l
  induction l with
  | nil => simp [insertSorted]
  | cons z l ih =>
    unfold insertSorted
    by_cases hle : le x z = true
    · rw [if_pos hle]
      simp [List.mem_cons]
    · rw [if_neg hle]
      simp only [List.mem_cons, ih]
      tauto

theorem mem_sortStable {α : Type} (le : α → α → Bool) (y : α) :
    ∀ l : List α, y ∈ sortStable le l ↔ y ∈ l := by
  intro l
  induction l with
  | nil => simp [sortStable]
  | cons z l ih =>
    unfold sortStable
    rw [mem_insertSorted, ih, List.mem_cons]

theorem length_insertSorted {α : Type} (le : α → α → Bool) (x : α) :
    ∀ l : List α, (insertSorted le x l).length = l.length + 1 := by
  intro l
  induction l with
  | nil => rfl
  | cons z l ih =>
    unfold insertSorted
    by_cases hle : le x z = true
    · rw [if_pos hle]
      rfl
    · rw [if_neg hle]
      simp [ih]

theorem length_sortStable {α : Type} (le : α → α → Bool) :
    ∀ l : List α, (sortStable le l).length = l.length := by
  intro l
  induction l with
  | nil => rfl
  | cons z l ih =>
    unfold sortStable
    rw [length_insertSorted, ih, List.length_cons]

/-- The `enriched` list of `api_hero_counters`: each matchup row with
`advantage = round(wr_vs - base, 4)` attached. -/
def enrichRows (rows : List MatchupQueryRow) (base : ℚ) : List RankEntry :=
  rows.map (fun r => ⟨r.hero_id, r.games, r.wr_vs, round4 (ratSub r.wr_vs base)⟩)

/-- The `counters` list: negative-advantage rows, sorted ascending,
truncated to `limit`. -/
def countersOf (rows : List MatchupQueryRow) (base : ℚ) (lim : Nat) :
    List RankEntry :=
  (sortStable (fun x y => decide (x.advantage ≤ y.advantage))
    ((enrichRows rows base).filter (fun e => decide (e.advantage < 0)))).take lim

/-- The `victims` list: nonnegative-advantage rows, sorted descending,
truncated to `limit`. -/
def victimsOf (rows : List MatchupQueryRow) (base : ℚ) (lim : Nat) :
    List RankEntry :=
  (sortStable (fun x y => decide (y.advantage ≤ x.advantage))
    ((enrichRows rows base).filter (fun e => decide (0 ≤ e.advantage)))).take lim

theorem apiHeroCounters_eq (s : DBState) (heroId lim minGames : Nat)
    (hne : getHeroMatchupRows s heroId minGames ≠ []) :
    apiHeroCounters s heroId lim minGames = some
      ((getHeroBaseWinrateFromDb s heroId).getD (1/2),
       countersOf (getHeroMatchupRows s heroId minGames)
         ((getHeroBaseWinrateFromDb s heroId).getD (1/2)) lim,
       victimsOf (getHeroMatchupRows s heroId minGames)
         ((getHeroBaseWinrateFromDb s heroId).getD (1/2)) lim) := by
  unfold apiHeroCounters
  rw [if_neg hne]
  rfl

/-- Claim C7 (amended): `api_hero_counters` returns exactly the truncated
sorted sign-split of the enriched `min_games`-filtered matchup rows; the
`counters` and `victims` lists are always disjoint, and their union is the
full enriched row set whenever neither sign class is longer than `limit`
(without that bound the `[:limit]` truncation loses rows — see the
counterexample). -/
theorem c7_counter_partition (s : DBState) (heroId lim minGames : Nat)
    (base : ℚ) (counters victims : List RankEntry)
    (hres : apiHeroCounters s heroId lim minGames
      = some (base, counters, victims)) :
    counters = countersOf (getHeroMatchupRows s heroId minGames) base lim ∧
    victims = victimsOf (getHeroMatchupRows s heroId minGames) base lim ∧
    (∀ e ∈ counters, e ∉ victims) ∧
    (((enrichRows (getHeroMatchupRows s heroId minGames) base).filter
        (fun e => decide (e.advantage < 0))).length ≤ lim →
      ((enrichRows (getHeroMatchupRows s heroId minGames) base).filter
        (fun e => decide (0 ≤ e.advantage))).length ≤ lim →
      ∀ e, (e ∈ counters ∨ e ∈ victims) ↔
        e ∈ enrichRows (getHeroMatchupRows s heroId minGames) base) := by
  have hne : getHeroMatchupRows s heroId minGames ≠ [] := by
    intro hnil
    rw [apiHeroCounters, if_pos hnil] at hres
    cases hres
  rw [apiHeroCounters_eq s heroId lim minGames hne] at hres
  have hres' := Option.some.inj hres
  have hbase : (getHeroBaseWinrateFromDb s heroId).getD (1/2) = base :=
    congrArg Prod.fst hres'
  have hcnt : counters
      = countersOf (getHeroMatchupRows s heroId minGames) base lim := by
    rw [← hbase]
    exact (congrArg (fun t => t.2.1) hres').symm
  have hvic : victims
      = victimsOf (getHeroMatchupRows s heroId minGames) base lim := by
    rw [← hbase]
    exact (congrArg (fun t => t.2.2) hres').symm
  refine ⟨hcnt, hvic, ?_, ?_⟩
  · intro e hec hev
    rw [hcnt] at hec
    rw [hvic] at hev
    have h1 : e.advantage < 0 := by
      have := List.mem_filter.mp
        ((mem_sortStable _ e _).mp (List.take_subset _ _ hec))
      simpa using this.2
    have h2 : (0 : ℚ) ≤ e.advantage := by
      have := List.mem_filter.mp
        ((mem_sortStable _ e _).mp (List.take_subset _ _ hev))
      simpa using this.2
    exact absurd h1 (not_lt.mpr h2)
  · intro hlc hlv e
    rw [hcnt, hvic]
    unfold countersOf victimsOf
    rw [List.take_of_length_le (by rw [length_sortStable]; exact hlc),
      List.take_of_length_le (by rw [length_sortStable]; exact hlv),
      mem_sortStable, mem_sortStable, List.mem_filter, List.mem_filter]
    constructor
    · rintro (⟨hm, _⟩ | ⟨hm, _⟩) <;> exact hm
    · intro hm
      rcases lt_or_ge e.advantage 0 with hlt | hge
      · exact Or.inl ⟨hm, by simpa using hlt⟩
      · exact Or.inr ⟨hm, by simpa using hge⟩

/-- Second seed match: radiant heroes 1,12-15 losing to dire 16-20. -/
def wMatchB : MatchRec :=
  { match_id := 2, start_time := 0, duration := some 1800, patch := none
    avg_rank_tier := none, rank_bucket := none, radiant_win := false
    radiant_heroes := [1, 12, 13, 14, 15], dire_heroes := [16, 17, 18, 19, 20]
    game_mode := some 22, lobby_type := some 7, players := [] }

/-- The datastore after ingesting `wMatch1` then `wMatchB`: hero 1 has one
win and one loss, five opponents with advantage +0.5 and five with -0.5. -/
def wStateAB : DBState := saveMatch (saveMatch emptyState wMatch1) wMatchB

/-- The base winrate `api_hero_counters` uses for hero 1 on `wStateAB`. -/
def wBaseAB : ℚ := (getHeroBaseWinrateFromDb wStateAB 1).getD (1/2)

set_option maxRecDepth 100000

theorem c7_counter_partition_witness :
    countersOf (getHeroMatchupRows wStateAB 1 1) wBaseAB 20
      = countersOf (getHeroMatchupRows wStateAB 1 1) wBaseAB 20 ∧
    victimsOf (getHeroMatchupRows wStateAB 1 1) wBaseAB 20
      = victimsOf (getHeroMatchupRows wStateAB 1 1) wBaseAB 20 ∧
    (∀ e ∈ countersOf (getHeroMatchupRows wStateAB 1 1) wBaseAB 20,
      e ∉ victimsOf (getHeroMatchupRows wStateAB 1 1) wBaseAB 20) ∧
    (((enrichRows (getHeroMatchupRows wStateAB 1 1) wBaseAB).filter
        (fun e => decide (e.advantage < 0))).length ≤ 20 →
      ((enrichRows (getHeroMatchupRows wStateAB 1 1) wBaseAB).filter
        (fun e => decide (0 ≤ e.advantage))).length ≤ 20 →
      ∀ e, (e ∈ countersOf (getHeroMatchupRows wStateAB 1 1) wBaseAB 20 ∨
        e ∈ victimsOf (getHeroMatchupRows wStateAB 1 1) wBaseAB 20) ↔
        e ∈ enrichRows (getHeroMatchupRows wStateAB 1 1) wBaseAB) :=
  c7_counter_partition wStateAB 1 20 1 wBaseAB
    (countersOf (getHeroMatchupRows wStateAB 1 1) wBaseAB 20)
    (victimsOf (getHeroMatchupRows wStateAB 1 1) wBaseAB 20)
    (apiHeroCounters_eq wStateAB 1 20 1 (by decide))

/-- Claim C7 counterexample: with `limit = 1` on `wStateAB`, hero 1 has
five negative-advantage rows; the truncated `counters` list keeps only one
of them, so the enriched row for opponent 17 (games = 1 ≥ min_games) lies
in neither `counters` nor `victims` — the claimed equality
`counters ∪ victims = {rows with games ≥ min_games}` fails as stated. -/
theorem c7_counterexample :
    apiHeroCounters wStateAB 1 1 1 ≠ none ∧
    (⟨17, 1, 0, Rat.divInt (-1) 2⟩ : RankEntry) ∈
      enrichRows (getHeroMatchupRows wStateAB 1 1) wBaseAB ∧
    (⟨17, 1, 0, Rat.divInt (-1) 2⟩ : RankEntry) ∉
      ((apiHeroCounters wStateAB 1 1 1).getD (0, [], [])).2.1 ∧
    (⟨17, 1, 0, Rat.divInt (-1) 2⟩ : RankEntry) ∉
      ((apiHeroCounters wStateAB 1 1 1).getD (0, [], [])).2.2 := by
  decide

theorem ratAdd_eq (x y : ℚ) : ratAdd x y = x + y := by
  unfold ratAdd
  rw [Rat.divInt_eq_div]
  push_cast
  conv_rhs => rw [← Rat.num_div_den x, ← Rat.num_div_den y]
  rw [div_add_div _ _ (show ((x.den : ℚ)) ≠ 0 by exact_mod_cast x.den_nz)
    (show ((y.den : ℚ)) ≠ 0 by exact_mod_cast y.den_nz)]
  congr 1
  ring

/-- Claim C8: `RateLimiter.acquire` does NOT serialize concurrent
acquisitions — there is no mutual exclusion around the read of
`_last_call`, the sleep, and the write.  With `max_per_minute = 1`
(minimum delay 60 s) and two concurrent tasks (the publicMatches and
explorer loops), both read `_last_call = 0` at time 0, both sleep until
60, and both issue their provider call at time 60: the sliding window
`(0, 60]` then holds 2 > 1 calls, exceeding the configured ceiling.  The
claimed serialization and rate bound are violated by the code. -/
theorem c8_rate_limiter_unserialized :
    RLReaches (minDelay 1) rlInit
      { now := 60, lastCall := 60, tasks := [.finished, .finished]
        calls := [60, 60] } ∧
    callsInWindow [60, 60] 0 = 2 ∧ 1 < callsInWindow [60, 60] 0 := by
  refine ⟨?_, by decide, by decide⟩
  refine Relation.ReflTransGen.head
    (RLStep.sleep rlInit 0 rfl (by norm_num [rlInit, minDelay])) ?_
  refine Relation.ReflTransGen.head
    (RLStep.sleep _ 1 rfl (by norm_num [rlInit, minDelay])) ?_
  refine Relation.ReflTransGen.head
    (RLStep.advance _ 60 (by norm_num [rlInit])) ?_
  refine Relation.ReflTransGen.head
    (RLStep.wake _ 0 _ rfl (by norm_num [rlInit, minDelay])) ?_
  refine Relation.ReflTransGen.head
    (RLStep.wake _ 1 _ rfl (by norm_num [rlInit, minDelay])) ?_
  exact Relation.ReflTransGen.refl

theorem getHeroMatchupsCached_unfold {ε : Type} (cached : List CacheRow)
    (lastUpdated : Option Int) (now ttl : Int)
    (provider : Except ε (List ApiMatchupEntry)) :
    getHeroMatchupsCached cached lastUpdated now ttl provider
      = if cacheIsFresh lastUpdated now ttl && !cached.isEmpty
        then .ok (sortByWinrateDesc cached, false, cached)
        else
          match provider with
          | .error e =>
            if !cached.isEmpty
            then .ok (sortByWinrateDesc cached, true, cached)
            else .error e
          | .ok data =>
            .ok (sortByWinrateDesc (buildCacheRows data now), true,
              buildCacheRows data now) := rfl

theorem isEmpty_false_of_ne_nil {α : Type} {l : List α} (h : l ≠ []) :
    l.isEmpty = false := by
  cases l with
  | nil => exact absurd rfl h
  | cons a l => rfl

/-- Claim C9: `get_hero_matchups_cached` returns the cached rows sorted by
winrate descending without calling the provider exactly when the cache is
younger than the TTL and non-empty; otherwise it calls the provider, and on
provider failure it returns the stale cached rows when any exist and
propagates the error precisely when the cache is empty; on provider success
it atomically replaces the hero's rows and returns them sorted. -/
theorem c9_opponent_cache_policy {ε : Type} (cached : List CacheRow)
    (lastUpdated : Option Int) (now ttl : Int)
    (provider : Except ε (List ApiMatchupEntry)) :
    (cacheIsFresh lastUpdated now ttl = true → cached ≠ [] →
      getHeroMatchupsCached cached lastUpdated now ttl provider
        = .ok (sortByWinrateDesc cached, false, cached)) ∧
    (∀ rows called tbl,
      getHeroMatchupsCached cached lastUpdated now ttl provider
        = .ok (rows, called, tbl) → called = false →
      cacheIsFresh lastUpdated now ttl = true ∧ cached ≠ [] ∧
        rows = sortByWinrateDesc cached ∧ tbl = cached) ∧
    (∀ e : ε, provider = .error e →
      ¬ (cacheIsFresh lastUpdated now ttl = true ∧ cached ≠ []) →
      ((cached ≠ [] →
        getHeroMatchupsCached cached lastUpdated now ttl provider
          = .ok (sortByWinrateDesc cached, true, cached)) ∧
       (cached = [] →
        getHeroMatchupsCached cached lastUpdated now ttl provider
          = .error e))) ∧
    (∀ data, provider = .ok data →
      ¬ (cacheIsFresh lastUpdated now ttl = true ∧ cached ≠ []) →
      getHeroMatchupsCached cached lastUpdated now ttl provider
        = .ok (sortByWinrateDesc (buildCacheRows data now), true,
            buildCacheRows data now)) := by
  have hcond : (cacheIsFresh lastUpdated now ttl && !cached.isEmpty) = true
      ↔ (cacheIsFresh lastUpdated now ttl = true ∧ cached ≠ []) := by
    rw [Bool.and_eq_true, Bool.not_eq_true']
    constructor
    · rintro ⟨h1, h2⟩
      refine ⟨h1, fun hc => ?_⟩
      rw [hc] at h2
      cases h2
    · rintro ⟨h1, h2⟩
      exact ⟨h1, isEmpty_false_of_ne_nil h2⟩
  refine ⟨?_, ?_, ?_, ?_⟩
  · intro hf hne
    rw [getHeroMatchupsCached_unfold, if_pos (hcond.mpr ⟨hf, hne⟩)]
  · intro rows called tbl hres hcalled
    rw [getHeroMatchupsCached_unfold] at hres
    by_cases hc : (cacheIsFresh lastUpdated now ttl && !cached.isEmpty) = true
    · rw [if_pos hc] at hres
      obtain ⟨h1, h2⟩ := hcond.mp hc
      have h3 := Except.ok.inj hres
      exact ⟨h1, h2, (congrArg Prod.fst h3).symm,
        (congrArg (fun t => t.2.2) h3).symm⟩
    · rw [if_neg hc] at hres
      cases provider with
      | error e =>
        by_cases hne : cached.isEmpty = false
        · simp only [hne, Bool.not_false, if_pos] at hres
          have h3 := Except.ok.inj hres
          have : called = true := (congrArg (fun t => t.2.1) h3).symm
          rw [this] at hcalled
          cases hcalled
        · have : cached.isEmpty = true := by
            cases h : cached.isEmpty
            · exact absurd h hne
            · rfl
          simp only [this, Bool.not_true, Bool.false_eq_true, if_false] at hres
          cases hres
      | ok data =>
        have h3 := Except.ok.inj hres
        have : called = true := (congrArg (fun t => t.2.1) h3).symm
        rw [this] at hcalled
        cases hcalled
  · intro e hprov hnot
    subst hprov
    constructor
    · intro hne
      rw [getHeroMatchupsCached_unfold,
        if_neg (fun hc => hnot (hcond.mp hc))]
      simp only [isEmpty_false_of_ne_nil hne, Bool.not_false, if_pos]
    · intro hnil
      subst hnil
      rw [getHeroMatchupsCached_unfold,
        if_neg (fun hc => hnot (hcond.mp hc))]
      rfl
  · intro data hprov hnot
    subst hprov
    rw [getHeroMatchupsCached_unfold,
      if_neg (fun hc => hnot (hcond.mp hc))]

/-- A concrete cached row for the C9 witness. -/
def wCacheRow : CacheRow := ⟨2, 10, 6, Rat.divInt 3 5, 0⟩

theorem c9_opponent_cache_policy_witness :
    getHeroMatchupsCached (ε := Unit) [wCacheRow] (some 0) 1 24 (.error ())
      = .ok (sortByWinrateDesc [wCacheRow], false, [wCacheRow]) ∧
    getHeroMatchupsCached (ε := Unit) [] none 1 24 (.error ())
      = .error () ∧
    getHeroMatchupsCached (ε := Unit) [wCacheRow] (some 0) 100 24 (.error ())
      = .ok (sortByWinrateDesc [wCacheRow], true, [wCacheRow]) :=
  ⟨(c9_opponent_cache_policy [wCacheRow] (some 0) 1 24 (.error ())).1
      (by decide) (by decide),
   ((c9_opponent_cache_policy [] none 1 24 (.error ())).2.2.1 () rfl
      (by decide)).2 rfl,
   ((c9_opponent_cache_policy [wCacheRow] (some 0) 100 24 (.error ())).2.2.1
      () rfl (by decide)).1 (by decide)⟩

end DotaStats
